import Mathlib

/-!
# Verification of the osohq/sample-user-mgmt-local authorization demos

This development embeds, in Lean, the parts of the repository that its
specification talks about:

* a policy evaluation engine over the Polar policies shipped in the repo
  (src/oso_policy.polar, src/oso-policy.polar and the CRM/EMR policy files).
  The actual evaluator lives in the hosted Oso service and is not part of the
  repository source, so the evaluator and the query compiler are modelled from
  the specification (sections 4.2 and 4.3): a positive, Datalog-style
  fixpoint/fuel evaluator over role-assignment facts, relation-edge facts,
  global-role facts and attribute facts, plus a compiler that unfolds the same
  rule set into a quantifier/conjunction/disjunction predicate tree.
  The policies themselves are transcribed rule-for-rule from the .polar files.

* the enforcement-layer server actions (src/actions/doc.ts,
  src/actions/doc_perms.ts, src/actions/user.ts, src/actions/crm.ts,
  src/actions/emr.ts), modelled as explicit state transitions over the rows of
  the relevant tables, with the results of the database/authorization queries
  passed in as data exactly as the TypeScript functions receive them.
-/

/-! ## Policy engine: facts, rules and the point evaluator

Modelled from the spec: the Rule Evaluator (spec section 4.2).  The hosted Oso
engine that the repository calls via oso.buildQuery / oso.listLocal /
authorizeLocal is not in the repository source; the evaluator below follows the
specification's description of rule evaluation (roles, role implication,
relation traversal including recursive relations, global roles, attribute
predicates, OR across rules and AND inside rule bodies), in desugared form:
every shorthand Polar rule becomes a Horn rule over the fact predicates.
-/

/-- A resource instance: a resource type name and an instance id
(for example the Document with id 7, or the Organization named acme). -/
structure Resource where
  ty : String
  id : String
deriving DecidableEq, Repr

/-- A value occurring in a fact: either a resource instance or a plain string
(role names, permission names, status literals). -/
inductive Val where
  | res (r : Resource)
  | str (s : String)
deriving DecidableEq, Repr

/-- A ground atom: a predicate name applied to values.  The predicates used by
the repository policies are has_role (role-assignment fact or derived role),
has_relation (relation edge), has_global_role (global role assignment),
has_permission (derived only), and the attribute predicates is_public,
in_stage, appointment_status, plus helper predicates declared by the policies
themselves. -/
structure GAtom where
  pred : String
  args : List Val
deriving DecidableEq, Repr

/-- A fact store snapshot: the list of base facts (role assignments, relation
edges, global role assignments, attribute values). -/
abbrev FactStore := List GAtom

/-- A term in a rule: a rule variable (by index) or a constant value. -/
inductive Term where
  | var (idx : Nat)
  | cnst (v : Val)
deriving DecidableEq, Repr

/-- An atom in a rule: predicate name applied to terms. -/
structure Atom where
  pred : String
  args : List Term
deriving DecidableEq, Repr

/-- A Horn rule.  varTys gives, for each variable index, the resource type the
variable ranges over (Polar rules are typed: actor variables range over Users,
`org matches Organization` ranges over Organizations, and so on). -/
structure Rule where
  varTys : List String
  head : Atom
  body : List Atom
deriving DecidableEq, Repr

/-- A policy is its list of desugared rules. -/
abbrev Policy := List Rule

/-- Substitute an assignment (one value per variable index) into a term. -/
def substTerm (env : List Val) : Term → Val
  | .var i => env.getD i (Val.str "")
  | .cnst v => v

/-- Substitute an assignment into an atom to produce a ground atom. -/
def substAtom (env : List Val) (a : Atom) : GAtom :=
  ⟨a.pred, a.args.map (substTerm env)⟩

/-- The resources mentioned by a value. -/
def Val.resources : Val → List Resource
  | .res r => [r]
  | .str _ => []

/-- All resources mentioned in a fact store. -/
def storeResources (s : FactStore) : List Resource :=
  s.flatMap (fun a => a.args.flatMap Val.resources)

/-- The resources mentioned by a term. -/
def Term.resources : Term → List Resource
  | .var _ => []
  | .cnst v => v.resources

/-- All resources mentioned as constants in a policy's rules. -/
def policyResources (pol : Policy) : List Resource :=
  pol.flatMap (fun r =>
    (r.head.args.flatMap Term.resources) ++
      r.body.flatMap (fun a => a.args.flatMap Term.resources))

/-- Candidate values for a rule variable of resource type ty: every resource of
that type occurring in the fact store, in the policy's rule constants, or in
the query being answered (the extra list). -/
def candidates (pol : Policy) (s : FactStore) (extra : List Resource)
    (ty : String) : List Val :=
  ((storeResources s ++ policyResources pol ++ extra).filter
    (fun r => r.ty == ty)).map Val.res

/-- All assignments drawing the i-th value from the i-th candidate list
(cartesian product). -/
def product : List (List Val) → List (List Val)
  | [] => [[]]
  | c :: rest => c.flatMap (fun v => (product rest).map (fun env => v :: env))

/-- The goal-directed rule evaluator, with fuel bounding the derivation depth
(spec section 4.2: recursive evaluation of rules, with relation traversal
bounded so that it terminates on any finite relation graph).  A ground atom
holds if it is a base fact, or if some rule instance derives it with every
body atom holding at smaller fuel. -/
def holds (pol : Policy) (s : FactStore) (extra : List Resource) :
    Nat → GAtom → Bool
  | 0, g => s.contains g
  | n + 1, g =>
    s.contains g ||
      pol.any fun r =>
        (product (r.varTys.map (candidates pol s extra))).any fun env =>
          substAtom env r.head == g &&
            r.body.all fun b => holds pol s extra n (substAtom env b)

/-- Evaluate(principal, action, resource): the point check of spec section 4.2.
The extra candidate pool is the query's own resources. -/
def evaluate (pol : Policy) (s : FactStore) (p : Resource) (a : String)
    (r : Resource) (fuel : Nat) : Bool :=
  holds pol s [p, r] fuel ⟨"has_permission", [.res p, .str a, .res r]⟩

/-! ## Transcription helpers shared by the policy files -/

/-- Rule variable. -/
def tv (i : Nat) : Term := .var i

/-- String constant term. -/
def ts (s : String) : Term := .cnst (.str s)

/-- Resource constant term. -/
def tres (ty id : String) : Term := .cnst (.res ⟨ty, id⟩)

/-- has_role atom with a constant role name. -/
def hasRoleA (u : Term) (role : String) (r : Term) : Atom :=
  ⟨"has_role", [u, ts role, r]⟩

/-- has_permission atom with a constant permission name. -/
def hasPermA (u : Term) (a : String) (r : Term) : Atom :=
  ⟨"has_permission", [u, ts a, r]⟩

/-- has_relation atom with a constant relation name. -/
def hasRelA (subj : Term) (rel : String) (tgt : Term) : Atom :=
  ⟨"has_relation", [subj, ts rel, tgt]⟩

/-- has_global_role atom with a constant role name. -/
def hasGlobalA (u : Term) (role : String) : Atom :=
  ⟨"has_global_role", [u, ts role]⟩

/-- The resource standing for a user (Polar actor User). -/
def userRes (u : String) : Resource := ⟨"User", u⟩

/-- Role-assignment fact. -/
def roleFact (u : String) (role : String) (r : Resource) : GAtom :=
  ⟨"has_role", [.res (userRes u), .str role, .res r]⟩

/-- Relation-edge fact. -/
def relFact (subj : Resource) (rel : String) (tgt : Resource) : GAtom :=
  ⟨"has_relation", [.res subj, .str rel, .res tgt]⟩

/-- Global role-assignment fact. -/
def globalRoleFact (u : String) (role : String) : GAtom :=
  ⟨"has_global_role", [.res (userRes u), .str role]⟩

/-! ## The document-sharing policy (src/oso_policy.polar)

Each Polar shorthand rule is transcribed as one Horn rule, in source order.
Variable 0 is always the actor (a User); variable 1 is the resource the rule
block is about; further variables are the targets introduced by `on`
conditions.  `"r2" if "r1"` becomes has_role(u, r2, x) from has_role(u, r1, x);
`"p" if "r" on "rel"` becomes has_permission(u, p, x) from
has_relation(x, rel, y) and has_role(u, r, y); attribute predicates keep their
Polar names as base-fact predicates. -/

def docPolicy : Policy := [
  -- resource Organization, line 14: "admin" if global "admin"
  ⟨["User", "Organization"], hasRoleA (tv 0) "admin" (tv 1),
    [hasGlobalA (tv 0) "admin"]⟩,
  -- line 15: "member" if "admin"
  ⟨["User", "Organization"], hasRoleA (tv 0) "member" (tv 1),
    [hasRoleA (tv 0) "admin" (tv 1)]⟩,
  -- line 18: "read" if "member"
  ⟨["User", "Organization"], hasPermA (tv 0) "read" (tv 1),
    [hasRoleA (tv 0) "member" (tv 1)]⟩,
  -- line 19: "create_user" if "admin"
  ⟨["User", "Organization"], hasPermA (tv 0) "create_user" (tv 1),
    [hasRoleA (tv 0) "admin" (tv 1)]⟩,
  -- line 22: "create_doc" if "member"
  ⟨["User", "Organization"], hasPermA (tv 0) "create_doc" (tv 1),
    [hasRoleA (tv 0) "member" (tv 1)]⟩,
  -- global block, line 32: "create_org" if "admin" (a global permission)
  ⟨["User"], ⟨"has_permission", [tv 0, ts "create_org"]⟩,
    [hasGlobalA (tv 0) "admin"]⟩,
  -- actor User, line 55: "read" if "member" on "parent"
  ⟨["User", "User", "Organization"], hasPermA (tv 0) "read" (tv 1),
    [hasRelA (tv 1) "parent" (tv 2), hasRoleA (tv 0) "member" (tv 2)]⟩,
  -- line 56: "edit_role" if "admin" on "parent"
  ⟨["User", "User", "Organization"], hasPermA (tv 0) "edit_role" (tv 1),
    [hasRelA (tv 1) "parent" (tv 2), hasRoleA (tv 0) "admin" (tv 2)]⟩,
  -- line 57: "delete" if "admin" on "parent"
  ⟨["User", "User", "Organization"], hasPermA (tv 0) "delete" (tv 1),
    [hasRelA (tv 1) "parent" (tv 2), hasRoleA (tv 0) "admin" (tv 2)]⟩,
  -- resource Document, line 83: "owner" if "admin" on "belongs_to"
  ⟨["User", "Document", "Organization"], hasRoleA (tv 0) "owner" (tv 1),
    [hasRelA (tv 1) "belongs_to" (tv 2), hasRoleA (tv 0) "admin" (tv 2)]⟩,
  -- line 86: "manager" if "owner"
  ⟨["User", "Document"], hasRoleA (tv 0) "manager" (tv 1),
    [hasRoleA (tv 0) "owner" (tv 1)]⟩,
  -- line 87: "editor" if "manager"
  ⟨["User", "Document"], hasRoleA (tv 0) "editor" (tv 1),
    [hasRoleA (tv 0) "manager" (tv 1)]⟩,
  -- line 88: "viewer" if "editor"
  ⟨["User", "Document"], hasRoleA (tv 0) "viewer" (tv 1),
    [hasRoleA (tv 0) "editor" (tv 1)]⟩,
  -- line 91: "delete" if "owner"
  ⟨["User", "Document"], hasPermA (tv 0) "delete" (tv 1),
    [hasRoleA (tv 0) "owner" (tv 1)]⟩,
  -- line 92: "assign_owner" if "owner"
  ⟨["User", "Document"], hasPermA (tv 0) "assign_owner" (tv 1),
    [hasRoleA (tv 0) "owner" (tv 1)]⟩,
  -- line 93: "set_public" if "owner"
  ⟨["User", "Document"], hasPermA (tv 0) "set_public" (tv 1),
    [hasRoleA (tv 0) "owner" (tv 1)]⟩,
  -- line 95: "manage_share" if "manager"
  ⟨["User", "Document"], hasPermA (tv 0) "manage_share" (tv 1),
    [hasRoleA (tv 0) "manager" (tv 1)]⟩,
  -- line 97: "edit" if "editor"
  ⟨["User", "Document"], hasPermA (tv 0) "edit" (tv 1),
    [hasRoleA (tv 0) "editor" (tv 1)]⟩,
  -- line 99: "read" if "viewer"
  ⟨["User", "Document"], hasPermA (tv 0) "read" (tv 1),
    [hasRoleA (tv 0) "viewer" (tv 1)]⟩,
  -- line 102: "read" if is_public(resource) and "member" on "belongs_to"
  ⟨["User", "Document", "Organization"], hasPermA (tv 0) "read" (tv 1),
    [⟨"is_public", [tv 1]⟩, hasRelA (tv 1) "belongs_to" (tv 2),
      hasRoleA (tv 0) "member" (tv 2)]⟩]


/-! ## The user-management base policy (src/oso-policy.polar) -/

def userMgmtPolicy : Policy := [
  -- resource Organization: "admin" if global "admin"
  ⟨["User", "Organization"], hasRoleA (tv 0) "admin" (tv 1),
    [hasGlobalA (tv 0) "admin"]⟩,
  -- "member" if "admin"
  ⟨["User", "Organization"], hasRoleA (tv 0) "member" (tv 1),
    [hasRoleA (tv 0) "admin" (tv 1)]⟩,
  -- "create" if global "admin"
  ⟨["User", "Organization"], hasPermA (tv 0) "create" (tv 1),
    [hasGlobalA (tv 0) "admin"]⟩,
  -- "read" if "member"
  ⟨["User", "Organization"], hasPermA (tv 0) "read" (tv 1),
    [hasRoleA (tv 0) "member" (tv 1)]⟩,
  -- "create_user" if "admin"
  ⟨["User", "Organization"], hasPermA (tv 0) "create_user" (tv 1),
    [hasRoleA (tv 0) "admin" (tv 1)]⟩,
  -- actor User: "read" if "member" on "parent"
  ⟨["User", "User", "Organization"], hasPermA (tv 0) "read" (tv 1),
    [hasRelA (tv 1) "parent" (tv 2), hasRoleA (tv 0) "member" (tv 2)]⟩,
  -- "edit_role" if "admin" on "parent"
  ⟨["User", "User", "Organization"], hasPermA (tv 0) "edit_role" (tv 1),
    [hasRelA (tv 1) "parent" (tv 2), hasRoleA (tv 0) "admin" (tv 2)]⟩,
  -- "delete" if "admin" on "parent"
  ⟨["User", "User", "Organization"], hasPermA (tv 0) "delete" (tv 1),
    [hasRelA (tv 1) "parent" (tv 2), hasRoleA (tv 0) "admin" (tv 2)]⟩]

/-! ## The CRM policy (src/unnamed/part_000)

Bare conditions naming a declared relation (for example "assignee" on
Opportunity, or "manager" on User) mean that the actor is the target of that
relation edge, so they transcribe to has_relation(resource, name, actor).
The 2-argument has_role(user, "admin") in the Territory{"USA"} rules is the
global-role lookup and transcribes to has_global_role. -/

def crmPolicy : Policy := [
  -- resource Organization, line 13: "admin" if global "admin"
  ⟨["User", "Organization"], hasRoleA (tv 0) "admin" (tv 1),
    [hasGlobalA (tv 0) "admin"]⟩,
  -- lines 14..17: "member" if "admin" / "sales" / "analyst" / "deal_desk"
  ⟨["User", "Organization"], hasRoleA (tv 0) "member" (tv 1),
    [hasRoleA (tv 0) "admin" (tv 1)]⟩,
  ⟨["User", "Organization"], hasRoleA (tv 0) "member" (tv 1),
    [hasRoleA (tv 0) "sales" (tv 1)]⟩,
  ⟨["User", "Organization"], hasRoleA (tv 0) "member" (tv 1),
    [hasRoleA (tv 0) "analyst" (tv 1)]⟩,
  ⟨["User", "Organization"], hasRoleA (tv 0) "member" (tv 1),
    [hasRoleA (tv 0) "deal_desk" (tv 1)]⟩,
  -- line 20: "read" if "member"
  ⟨["User", "Organization"], hasPermA (tv 0) "read" (tv 1),
    [hasRoleA (tv 0) "member" (tv 1)]⟩,
  -- line 21: "create_user" if "admin"
  ⟨["User", "Organization"], hasPermA (tv 0) "create_user" (tv 1),
    [hasRoleA (tv 0) "admin" (tv 1)]⟩,
  -- line 24: "create_opportunity" if "sales"
  ⟨["User", "Organization"], hasPermA (tv 0) "create_opportunity" (tv 1),
    [hasRoleA (tv 0) "sales" (tv 1)]⟩,
  -- global block, line 34: "create_org" if "admin"
  ⟨["User"], ⟨"has_permission", [tv 0, ts "create_org"]⟩,
    [hasGlobalA (tv 0) "admin"]⟩,
  -- actor User, line 58: "read" if "read" on "parent"
  ⟨["User", "User", "Organization"], hasPermA (tv 0) "read" (tv 1),
    [hasRelA (tv 1) "parent" (tv 2), hasPermA (tv 0) "read" (tv 2)]⟩,
  -- line 59: "edit_role" if "admin" on "parent"
  ⟨["User", "User", "Organization"], hasPermA (tv 0) "edit_role" (tv 1),
    [hasRelA (tv 1) "parent" (tv 2), hasRoleA (tv 0) "admin" (tv 2)]⟩,
  -- line 61: "assign_territory" if "sales" on "parent" and is_sales_user(resource)
  ⟨["User", "User", "Organization"], hasPermA (tv 0) "assign_territory" (tv 1),
    [hasRelA (tv 1) "parent" (tv 2), hasRoleA (tv 0) "sales" (tv 2),
      ⟨"is_sales_user", [tv 1]⟩]⟩,
  -- line 62: "assign_territory" if "admin" on "parent" and is_sales_user(resource)
  ⟨["User", "User", "Organization"], hasPermA (tv 0) "assign_territory" (tv 1),
    [hasRelA (tv 1) "parent" (tv 2), hasRoleA (tv 0) "admin" (tv 2),
      ⟨"is_sales_user", [tv 1]⟩]⟩,
  -- line 63: "assign_territory" if "manager" and is_sales_user(resource)
  ⟨["User", "User"], hasPermA (tv 0) "assign_territory" (tv 1),
    [hasRelA (tv 1) "manager" (tv 0), ⟨"is_sales_user", [tv 1]⟩]⟩,
  -- lines 66..68: is_sales_user(user) if org matches Organization
  --   and has_role(user, "sales", org)
  ⟨["User", "Organization"], ⟨"is_sales_user", [tv 0]⟩,
    [hasRoleA (tv 0) "sales" (tv 1)]⟩,
  -- resource Territory, line 83: "responsible" if "responsible" on "ancestor"
  ⟨["User", "Territory", "Territory"], hasRoleA (tv 0) "responsible" (tv 1),
    [hasRelA (tv 1) "ancestor" (tv 2), hasRoleA (tv 0) "responsible" (tv 2)]⟩,
  -- line 85: "manage_responsibility" if "responsible" on "ancestor"
  ⟨["User", "Territory", "Territory"],
    hasPermA (tv 0) "manage_responsibility" (tv 1),
    [hasRelA (tv 1) "ancestor" (tv 2), hasRoleA (tv 0) "responsible" (tv 2)]⟩,
  -- line 87: "create_opportunity" if "responsible"
  ⟨["User", "Territory"], hasPermA (tv 0) "create_opportunity" (tv 1),
    [hasRoleA (tv 0) "responsible" (tv 1)]⟩,
  -- lines 90..92: USA manage_responsibility for org admins
  ⟨["User", "Organization"],
    ⟨"has_permission", [tv 0, ts "manage_responsibility", tres "Territory" "USA"]⟩,
    [hasRoleA (tv 0) "admin" (tv 1)]⟩,
  -- lines 94..95: USA manage_responsibility for global admins
  ⟨["User"],
    ⟨"has_permission", [tv 0, ts "manage_responsibility", tres "Territory" "USA"]⟩,
    [hasGlobalA (tv 0) "admin"]⟩,
  -- lines 97..98: USA manage_responsibility for those responsible for USA
  ⟨["User"],
    ⟨"has_permission", [tv 0, ts "manage_responsibility", tres "Territory" "USA"]⟩,
    [⟨"has_role", [tv 0, ts "responsible", tres "Territory" "USA"]⟩]⟩,
  -- resource Opportunity, line 109: "read" if "read" on "org"
  ⟨["User", "Opportunity", "Organization"], hasPermA (tv 0) "read" (tv 1),
    [hasRelA (tv 1) "org" (tv 2), hasPermA (tv 0) "read" (tv 2)]⟩,
  -- line 111: "assign" if "responsible" on "territory"
  ⟨["User", "Opportunity", "Territory"], hasPermA (tv 0) "assign" (tv 1),
    [hasRelA (tv 1) "territory" (tv 2), hasRoleA (tv 0) "responsible" (tv 2)]⟩,
  -- line 112: "potential_assignee" if "responsible" on "territory"
  ⟨["User", "Opportunity", "Territory"],
    hasRoleA (tv 0) "potential_assignee" (tv 1),
    [hasRelA (tv 1) "territory" (tv 2), hasRoleA (tv 0) "responsible" (tv 2)]⟩,
  -- line 113: "potential_assignee" if in_stage(resource, "negotiating")
  --   and "deal_desk" on "org"
  ⟨["User", "Opportunity", "Organization"],
    hasRoleA (tv 0) "potential_assignee" (tv 1),
    [⟨"in_stage", [tv 1, ts "negotiating"]⟩, hasRelA (tv 1) "org" (tv 2),
      hasRoleA (tv 0) "deal_desk" (tv 2)]⟩,
  -- line 115: "view_amount" if "assignee"
  ⟨["User", "Opportunity"], hasPermA (tv 0) "view_amount" (tv 1),
    [hasRelA (tv 1) "assignee" (tv 0)]⟩,
  -- line 116: "view_amount" if "manager" on "assignee"
  ⟨["User", "Opportunity", "User"], hasPermA (tv 0) "view_amount" (tv 1),
    [hasRelA (tv 1) "assignee" (tv 2), hasRelA (tv 2) "manager" (tv 0)]⟩,
  -- line 117: "view_amount" if "responsible" on "territory"
  ⟨["User", "Opportunity", "Territory"], hasPermA (tv 0) "view_amount" (tv 1),
    [hasRelA (tv 1) "territory" (tv 2), hasRoleA (tv 0) "responsible" (tv 2)]⟩,
  -- line 118: "view_amount" if "analyst" on "org"
  ⟨["User", "Opportunity", "Organization"], hasPermA (tv 0) "view_amount" (tv 1),
    [hasRelA (tv 1) "org" (tv 2), hasRoleA (tv 0) "analyst" (tv 2)]⟩,
  -- line 120: "change_details" if "assignee"
  ⟨["User", "Opportunity"], hasPermA (tv 0) "change_details" (tv 1),
    [hasRelA (tv 1) "assignee" (tv 0)]⟩,
  -- line 121: "change_details" if "manager" on "assignee"
  ⟨["User", "Opportunity", "User"], hasPermA (tv 0) "change_details" (tv 1),
    [hasRelA (tv 1) "assignee" (tv 2), hasRelA (tv 2) "manager" (tv 0)]⟩]

/-! ## The EMR policy (src/unnamed/part_001)

The raw has_permission rule for "read.internal" has a disjunction in its body
(appointment_status scheduled or completed); it is transcribed as two Horn
rules, one per disjunct. -/

def emrPolicy : Policy := [
  -- resource Organization, line 14: "read" if "medical_staff"
  ⟨["User", "Organization"], hasPermA (tv 0) "read" (tv 1),
    [hasRoleA (tv 0) "medical_staff" (tv 1)]⟩,
  -- line 15: "read" if "administrative_staff"
  ⟨["User", "Organization"], hasPermA (tv 0) "read" (tv 1),
    [hasRoleA (tv 0) "administrative_staff" (tv 1)]⟩,
  -- line 16: "read" if global "admin"
  ⟨["User", "Organization"], hasPermA (tv 0) "read" (tv 1),
    [hasGlobalA (tv 0) "admin"]⟩,
  -- line 17: "create_user" if "administrative_staff"
  ⟨["User", "Organization"], hasPermA (tv 0) "create_user" (tv 1),
    [hasRoleA (tv 0) "administrative_staff" (tv 1)]⟩,
  -- line 18: "create_user" if global "admin"
  ⟨["User", "Organization"], hasPermA (tv 0) "create_user" (tv 1),
    [hasGlobalA (tv 0) "admin"]⟩,
  -- line 21: "schedule_appointment" if "administrative_staff"
  ⟨["User", "Organization"], hasPermA (tv 0) "schedule_appointment" (tv 1),
    [hasRoleA (tv 0) "administrative_staff" (tv 1)]⟩,
  -- global block, line 31: "create_org" if "admin"
  ⟨["User"], ⟨"has_permission", [tv 0, ts "create_org"]⟩,
    [hasGlobalA (tv 0) "admin"]⟩,
  -- actor User, line 54: "read" if "read" on "parent"
  ⟨["User", "User", "Organization"], hasPermA (tv 0) "read" (tv 1),
    [hasRelA (tv 1) "parent" (tv 2), hasPermA (tv 0) "read" (tv 2)]⟩,
  -- line 55: "delete" if "administrative_staff" on "parent"
  ⟨["User", "User", "Organization"], hasPermA (tv 0) "delete" (tv 1),
    [hasRelA (tv 1) "parent" (tv 2),
      hasRoleA (tv 0) "administrative_staff" (tv 2)]⟩,
  -- resource Appointment, line 66: "read" if "read" on "scheduled"
  ⟨["User", "Appointment", "Organization"], hasPermA (tv 0) "read" (tv 1),
    [hasRelA (tv 1) "scheduled" (tv 2), hasPermA (tv 0) "read" (tv 2)]⟩,
  -- line 67: "read" if "patient"
  ⟨["User", "Appointment"], hasPermA (tv 0) "read" (tv 1),
    [hasRelA (tv 1) "patient" (tv 0)]⟩,
  -- line 69: "complete" if "medical_staff"
  --   and appointment_status(resource, "scheduled")
  ⟨["User", "Appointment"], hasPermA (tv 0) "complete" (tv 1),
    [hasRelA (tv 1) "medical_staff" (tv 0),
      ⟨"appointment_status", [tv 1, ts "scheduled"]⟩]⟩,
  -- lines 71..72: "cancel" if "administrative_staff" on "scheduled"
  --   and appointment_status(resource, "scheduled")
  ⟨["User", "Appointment", "Organization"], hasPermA (tv 0) "cancel" (tv 1),
    [hasRelA (tv 1) "scheduled" (tv 2),
      hasRoleA (tv 0) "administrative_staff" (tv 2),
      ⟨"appointment_status", [tv 1, ts "scheduled"]⟩]⟩,
  -- resource Record, line 81: "read" if "read" on "from"
  ⟨["User", "Record", "Appointment"], hasPermA (tv 0) "read" (tv 1),
    [hasRelA (tv 1) "from" (tv 2), hasPermA (tv 0) "read" (tv 2)]⟩,
  -- lines 89..107: raw has_permission(user, "read.internal", record),
  -- scheduled disjunct
  ⟨["User", "Record", "Organization", "Appointment", "User", "Appointment"],
    hasPermA (tv 0) "read.internal" (tv 1),
    [hasRoleA (tv 0) "medical_staff" (tv 2),
      hasRelA (tv 1) "from" (tv 3),
      hasRelA (tv 3) "patient" (tv 4),
      hasRelA (tv 3) "scheduled" (tv 2),
      hasRelA (tv 5) "patient" (tv 4),
      hasRelA (tv 5) "scheduled" (tv 2),
      hasRelA (tv 5) "medical_staff" (tv 0),
      ⟨"appointment_status", [tv 5, ts "scheduled"]⟩]⟩,
  -- lines 89..107, completed disjunct
  ⟨["User", "Record", "Organization", "Appointment", "User", "Appointment"],
    hasPermA (tv 0) "read.internal" (tv 1),
    [hasRoleA (tv 0) "medical_staff" (tv 2),
      hasRelA (tv 1) "from" (tv 3),
      hasRelA (tv 3) "patient" (tv 4),
      hasRelA (tv 3) "scheduled" (tv 2),
      hasRelA (tv 5) "patient" (tv 4),
      hasRelA (tv 5) "scheduled" (tv 2),
      hasRelA (tv 5) "medical_staff" (tv 0),
      ⟨"appointment_status", [tv 5, ts "completed"]⟩]⟩]

/-! ## The second EMR policy variant (src/unnamed/part_002)

Identical resource blocks, with "read.internal" expressed through the helper
predicates patient_record and medical_staff_for_appointment (whose disjunctive
body again becomes two Horn rules). -/

def emrPolicy2 : Policy := [
  ⟨["User", "Organization"], hasPermA (tv 0) "read" (tv 1),
    [hasRoleA (tv 0) "medical_staff" (tv 1)]⟩,
  ⟨["User", "Organization"], hasPermA (tv 0) "read" (tv 1),
    [hasRoleA (tv 0) "administrative_staff" (tv 1)]⟩,
  ⟨["User", "Organization"], hasPermA (tv 0) "read" (tv 1),
    [hasGlobalA (tv 0) "admin"]⟩,
  ⟨["User", "Organization"], hasPermA (tv 0) "create_user" (tv 1),
    [hasRoleA (tv 0) "administrative_staff" (tv 1)]⟩,
  ⟨["User", "Organization"], hasPermA (tv 0) "create_user" (tv 1),
    [hasGlobalA (tv 0) "admin"]⟩,
  ⟨["User", "Organization"], hasPermA (tv 0) "schedule_appointment" (tv 1),
    [hasRoleA (tv 0) "administrative_staff" (tv 1)]⟩,
  ⟨["User"], ⟨"has_permission", [tv 0, ts "create_org"]⟩,
    [hasGlobalA (tv 0) "admin"]⟩,
  ⟨["User", "User", "Organization"], hasPermA (tv 0) "read" (tv 1),
    [hasRelA (tv 1) "parent" (tv 2), hasPermA (tv 0) "read" (tv 2)]⟩,
  ⟨["User", "User", "Organization"], hasPermA (tv 0) "delete" (tv 1),
    [hasRelA (tv 1) "parent" (tv 2),
      hasRoleA (tv 0) "administrative_staff" (tv 2)]⟩,
  ⟨["User", "Appointment", "Organization"], hasPermA (tv 0) "read" (tv 1),
    [hasRelA (tv 1) "scheduled" (tv 2), hasPermA (tv 0) "read" (tv 2)]⟩,
  ⟨["User", "Appointment"], hasPermA (tv 0) "read" (tv 1),
    [hasRelA (tv 1) "patient" (tv 0)]⟩,
  ⟨["User", "Appointment"], hasPermA (tv 0) "complete" (tv 1),
    [hasRelA (tv 1) "medical_staff" (tv 0),
      ⟨"appointment_status", [tv 1, ts "scheduled"]⟩]⟩,
  ⟨["User", "Appointment", "Organization"], hasPermA (tv 0) "cancel" (tv 1),
    [hasRelA (tv 1) "scheduled" (tv 2),
      hasRoleA (tv 0) "administrative_staff" (tv 2),
      ⟨"appointment_status", [tv 1, ts "scheduled"]⟩]⟩,
  ⟨["User", "Record", "Appointment"], hasPermA (tv 0) "read" (tv 1),
    [hasRelA (tv 1) "from" (tv 2), hasPermA (tv 0) "read" (tv 2)]⟩,
  -- lines 85..88: patient_record(patient, record)
  ⟨["User", "Record", "Appointment"], ⟨"patient_record", [tv 0, tv 1]⟩,
    [hasRelA (tv 1) "from" (tv 2), hasRelA (tv 2) "patient" (tv 0)]⟩,
  -- lines 91..96: medical_staff_for_appointment, scheduled disjunct
  ⟨["User", "Appointment"],
    ⟨"medical_staff_for_appointment", [tv 0, tv 1]⟩,
    [hasRelA (tv 1) "medical_staff" (tv 0),
      ⟨"appointment_status", [tv 1, ts "scheduled"]⟩]⟩,
  -- lines 91..96, completed disjunct
  ⟨["User", "Appointment"],
    ⟨"medical_staff_for_appointment", [tv 0, tv 1]⟩,
    [hasRelA (tv 1) "medical_staff" (tv 0),
      ⟨"appointment_status", [tv 1, ts "completed"]⟩]⟩,
  -- lines 100..109: has_permission(user, "read.internal", record)
  ⟨["User", "Record", "User", "Appointment"],
    hasPermA (tv 0) "read.internal" (tv 1),
    [⟨"patient_record", [tv 2, tv 1]⟩,
      hasRelA (tv 3) "patient" (tv 2),
      ⟨"medical_staff_for_appointment", [tv 0, tv 3]⟩]⟩]

/-- The list of policies shipped in the repository (the document-sharing
policy, the user-management base policy, the CRM policy and the two EMR policy
variants). -/
def repoPolicies : List Policy :=
  [docPolicy, userMgmtPolicy, crmPolicy, emrPolicy, emrPolicy2]

/-! ## Query compiler (spec section 4.3, Local Authorization)

Modelled from the spec: CompileFilter mirrors the evaluator's structure but
builds an expression tree instead of returning a boolean; role/relation checks
become existence checks against the fact sources, rule unfolding (including
recursive relations) is expanded iteratively up to a configured maximum depth,
and and/or map to predicate conjunction/disjunction.  The host renders this
tree as a WHERE-clause fragment; denote below plays the role of the SQL engine
interpreting that fragment against the fact tables. -/

/-- A term of the compiled predicate language: a de Bruijn variable bound by an
enclosing existential block, the candidate-row marker (the resource the
embedding WHERE clause is currently filtering), or a literal value. -/
inductive PTm where
  | bvar (n : Nat)
  | selfT
  | lit (v : Val)
deriving DecidableEq, Repr

/-- Shift de Bruijn variables by k (used when a goal pattern is moved under a
new existential block). -/
def PTm.lift (k : Nat) : PTm → PTm
  | .bvar n => .bvar (n + k)
  | .selfT => .selfT
  | .lit v => .lit v

/-- The compiled predicate expression tree (spec section 3,
CompiledPredicate): truth constants, an exists-a-fact-row-matching clause,
equality tests, conjunction, disjunction, and typed existential blocks over
the resources visible to the query. -/
inductive CPred where
  | tru
  | fls
  | factP (pred : String) (args : List PTm)
  | eqP (a b : PTm)
  | conj (a b : CPred)
  | disj (a b : CPred)
  | exs (tys : List String) (body : CPred)
deriving Repr

/-- Evaluate a compiled term against the existential witnesses in scope and
the candidate row. -/
def dPTm (selfV : Val) (env : List Val) : PTm → Val
  | .bvar n => env.getD n (Val.str "")
  | .selfT => selfV
  | .lit v => v

/-- Interpret a compiled predicate against a fact store.  The existential
blocks range over the same candidate pool the evaluator enumerates. -/
def denote (pol : Policy) (s : FactStore) (extra : List Resource)
    (selfV : Val) : CPred → List Val → Bool
  | .tru, _ => true
  | .fls, _ => false
  | .factP p args, env => s.contains ⟨p, args.map (dPTm selfV env)⟩
  | .eqP a b, env => dPTm selfV env a == dPTm selfV env b
  | .conj a b, env =>
    denote pol s extra selfV a env && denote pol s extra selfV b env
  | .disj a b, env =>
    denote pol s extra selfV a env || denote pol s extra selfV b env
  | .exs tys body, env =>
    (product (tys.map (candidates pol s extra))).any fun vs =>
      denote pol s extra selfV body (vs ++ env)

/-- A rule term as a compiled-predicate term: rule variable i becomes the i-th
de Bruijn variable of the enclosing existential block. -/
def toPTm : Term → PTm
  | .var i => .bvar i
  | .cnst v => .lit v

/-- Pointwise equality of two argument lists, as a compiled predicate. -/
def eqArgs : List PTm → List PTm → CPred
  | [], [] => .tru
  | a :: la, b :: lb => .conj (.eqP a b) (eqArgs la lb)
  | _, _ => .fls

/-- Fold disjunction over a list of predicates. -/
def orAll : List CPred → CPred
  | [] => .fls
  | p :: rest => .disj p (orAll rest)

/-- Fold conjunction over a list of predicates. -/
def andAll : List CPred → CPred
  | [] => .tru
  | p :: rest => .conj p (andAll rest)

/-- A goal pattern: a predicate name applied to compiled terms. -/
structure PAtom where
  pred : String
  args : List PTm
deriving Repr

/-- Instantiate a goal pattern to a ground atom. -/
def instPAtom (selfV : Val) (env : List Val) (g : PAtom) : GAtom :=
  ⟨g.pred, g.args.map (dPTm selfV env)⟩

/-- Compile a goal pattern into a predicate, unfolding rule applications up to
the given depth: a goal holds if a matching fact row exists, or if the head of
some rule unifies with it (the equality tests) and every body atom's
compilation holds under the rule's existential block. -/
def compile (pol : Policy) : Nat → PAtom → CPred
  | 0, g => .factP g.pred g.args
  | n + 1, g =>
    .disj (.factP g.pred g.args)
      (orAll (pol.map fun r =>
        if r.head.pred == g.pred then
          .exs r.varTys
            (.conj
              (eqArgs (r.head.args.map toPTm)
                (g.args.map (PTm.lift r.varTys.length)))
              (andAll (r.body.map fun b =>
                compile pol n ⟨b.pred, b.args.map toPTm⟩)))
        else .fls))

/-- CompileFilter(principal, action, T): compile the allow query with the
candidate row as the resource argument. -/
def compileFilter (pol : Policy) (p : Resource) (a : String) (fuel : Nat) :
    CPred :=
  compile pol fuel ⟨"has_permission", [.lit (.res p), .lit (.str a), .selfT]⟩

/-- Whether the compiled filter selects the candidate row with the given id
among rows of resource type T. -/
def listSelects (pol : Policy) (s : FactStore) (p : Resource) (a : String)
    (T : String) (fuel : Nat) (id : String) : Bool :=
  denote pol s [p, ⟨T, id⟩] (Val.res ⟨T, id⟩) (compileFilter pol p a fuel) []

/-! ## Rule well-formedness: every variable index is within the rule's
variable-type list (all transcribed policies satisfy this). -/

/-- Term well-formedness under k variables. -/
def Term.wfB (k : Nat) : Term → Bool
  | .var i => decide (i < k)
  | .cnst _ => true

/-- Atom well-formedness under k variables. -/
def Atom.wfB (k : Nat) (a : Atom) : Bool :=
  a.args.all (Term.wfB k)

/-- Rule well-formedness. -/
def Rule.wfB (r : Rule) : Bool :=
  Atom.wfB r.varTys.length r.head && r.body.all (Atom.wfB r.varTys.length)

/-- Policy well-formedness. -/
def polWf (pol : Policy) : Bool :=
  pol.all Rule.wfB

/-! ## Enforcement layer: table rows and observable outcomes

Each server action is modelled as a state transition over the rows of the
tables it touches.  The results of its database/authorization queries are
passed in as data with the shapes the TypeScript function receives (booleans
from authorizeUser, an actions list from actions_inner, a pg result object
from client.query).  The returned pair is the call's outcome and the table
contents after commit or rollback. -/

/-- An observable failure of a server action: a thrown not-permitted error, a
thrown domain error, or a JavaScript TypeError from reading a field of
undefined. -/
inductive Err where
  | authz (msg : String)
  | domain (msg : String)
  | typeError
deriving DecidableEq, Repr

/-- A row of the document_user_roles table. -/
structure DocumentUserRole where
  document_id : Nat
  username : String
  role : String
deriving DecidableEq, Repr

/-- A row of the documents table. -/
structure Document where
  id : Nat
  org : String
  title : String
  public : Bool
deriving DecidableEq, Repr

/-- A row of the users table (username is the table's primary key). -/
structure User where
  username : String
  org : String
  role : String
deriving DecidableEq, Repr

/-- SELECT COUNT(*) FROM document_user_roles
WHERE role = owner AND document_id = id. -/
def ownerCount (db : List DocumentUserRole) (id : Nat) : Nat :=
  (db.filter fun r => r.role == "owner" && r.document_id == id).length

namespace DocActions

/-- src/actions/doc.ts updateDocUserRole (lines 551..635): manage_share gate,
assign_owner gate when the new role is owner, SELECT of the current role with
a row-count check, assign_owner gate when the current role is owner, the
UPDATE, and the owner-count re-check inside the same transaction; any thrown
error rolls the transaction back. -/
def updateDocUserRole
    (manageShareAuth assignOwnerNewAuth assignOwnerCurAuth : Bool)
    (id : Nat) (username role : String) (db : List DocumentUserRole) :
    Except Err Unit × List DocumentUserRole :=
  if !manageShareAuth then
    (.error (.authz "not permitted to manage share of Document"), db)
  else if role == "owner" && !assignOwnerNewAuth then
    (.error (.authz "not permitted to assign owner of Document"), db)
  else
    let roleCurr := db.filter fun r =>
      r.document_id == id && r.username == username
    if roleCurr.length ≠ 1 then
      (.error (.domain "User does not have role on Document"), db)
    else if (roleCurr.headD ⟨0, "", ""⟩).role == "owner" && !assignOwnerCurAuth
    then
      (.error (.authz "not permitted to change owner of Document"), db)
    else
      let db2 := db.map fun r =>
        if r.document_id == id && r.username == username then
          { r with role := role }
        else r
      if ownerCount db2 id < 1 then
        (.error (.domain "Document must have at least one owner"), db)
      else
        (.ok (), db2)

/-- src/actions/doc.ts deleteDocUserRole (lines 653..714): manage_share gate,
DELETE RETURNING role, read of rows[0].role (a TypeError when no row was
deleted), assign_owner gate when the deleted role was owner, and the
owner-count re-check; any thrown error rolls the transaction back. -/
def deleteDocUserRole (manageShareAuth assignOwnerAuth : Bool)
    (id : Nat) (username : String) (db : List DocumentUserRole) :
    Except Err Unit × List DocumentUserRole :=
  if !manageShareAuth then
    (.error (.authz "not permitted to manage share of Document"), db)
  else
    let deleted := db.filter fun r =>
      r.document_id == id && r.username == username
    let db2 := db.filter fun r =>
      !(r.document_id == id && r.username == username)
    match deleted.head? with
    | none => (.error .typeError, db)
    | some row =>
      if row.role == "owner" && !assignOwnerAuth then
        (.error (.authz "not permitted to assign owner of Document"), db)
      else if ownerCount db2 id < 1 then
        (.error (.domain "Document must have at least one owner"), db)
      else
        (.ok (), db2)

/-- src/actions/doc.ts createDocument (lines 54..104): create_doc gate, then
INSERT INTO documents ... SELECT org FROM users WHERE username = requestor
RETURNING id (username is the users primary key, so at most one row matches;
reading rows[0].id of an empty result is a TypeError and rolls back), then the
owner-role INSERT for the requestor, then COMMIT. -/
def createDocument (auth : Bool) (requestor title : String) (users : List User)
    (freshId : Nat) (docs : List Document) (roles : List DocumentUserRole) :
    Except Err Nat × List Document × List DocumentUserRole :=
  if !auth then
    (.error (.authz "not permitted to create documents in Organization"),
      docs, roles)
  else
    match users.filter (fun u => u.username == requestor) with
    | [] => (.error .typeError, docs, roles)
    | u :: _ =>
      (.ok freshId, docs ++ [⟨freshId, u.org, title, false⟩],
        roles ++ [⟨freshId, requestor, "owner"⟩])

/-- src/actions/doc.ts deleteDoc (lines 297..319): delete gate, then the
DELETE. -/
def deleteDoc (auth : Bool) (id : Nat) (docs : List Document) :
    Except Err Unit × List Document :=
  if !auth then
    (.error (.authz "not permitted to delete Document"), docs)
  else
    (.ok (), docs.filter fun d => !(d.id == id))

end DocActions

namespace DocPerms

/-- A row of the RETURNING clause of the CTE UPDATE in doc_perms.ts
updateDocUserRole: pg delivers the previous role as a row object with a role
column. -/
structure RoleRow where
  role : String
deriving DecidableEq, Repr

/-- JavaScript strict equality between a row object and a string primitive:
always false, because the operands differ in type.  doc_perms.ts line 329
compares roleCurr.rows[0] (an object) with the string literal owner. -/
def rowStrictEqString (row : RoleRow) (s : String) : Bool := false

/-- src/actions/doc_perms.ts updateDocUserRole (lines 287..352): action-list
gates, the CTE UPDATE RETURNING the previous role with a row-count check, then
the owner-demotion guard, which compares the returned row object itself with
the string owner; the assign_owner re-check and the owner-count re-check sit
inside that guard. -/
def updateDocUserRole (docActions : List String) (id : Nat)
    (username role : String) (db : List DocumentUserRole) :
    Except Err Unit × List DocumentUserRole :=
  if !(docActions.contains "manage_share") then
    (.error (.authz "not permitted to manage share for Document"), db)
  else if role == "owner" && !(docActions.contains "assign_owner") then
    (.error (.authz "not permitted to assign owner for Document"), db)
  else
    let current := db.filter fun r =>
      r.document_id == id && r.username == username
    let db2 := db.map fun r =>
      if r.document_id == id && r.username == username then
        { r with role := role }
      else r
    if current.length ≠ 1 then
      (.error (.domain "User does not have role on Document"), db)
    else if rowStrictEqString ⟨(current.headD ⟨0, "", ""⟩).role⟩ "owner" then
      if !(docActions.contains "assign_owner") then
        (.error (.authz "not permitted to change owner of Document"), db)
      else if ownerCount db2 id < 1 then
        (.error (.domain "Document must have at least one owner"), db)
      else
        (.ok (), db2)
    else
      (.ok (), db2)

/-- src/actions/doc_perms.ts deleteDocUserRole (lines 370..414): action-list
gate, DELETE RETURNING role (reading rows[0].role of an empty result is a
TypeError and rolls back), assign_owner gate when the deleted role was owner,
and the owner-count re-check. -/
def deleteDocUserRole (docActions : List String) (id : Nat) (username : String)
    (db : List DocumentUserRole) :
    Except Err Unit × List DocumentUserRole :=
  if !(docActions.contains "manage_share") then
    (.error (.authz "not permitted to manage share for Document"), db)
  else
    let deleted := db.filter fun r =>
      r.document_id == id && r.username == username
    let db2 := db.filter fun r =>
      !(r.document_id == id && r.username == username)
    match deleted.head? with
    | none => (.error .typeError, db)
    | some row =>
      if row.role == "owner" && !(docActions.contains "assign_owner") then
        (.error (.authz "not permitted to assign owner for Document"), db)
      else if ownerCount db2 id < 1 then
        (.error (.domain "Document must have at least one owner"), db)
      else
        (.ok (), db2)

/-- src/actions/doc_perms.ts assignDocUserRole (lines 202..227): checks the
requestor's actions on the document, then inserts the role row. -/
def assignDocUserRole (docActions : List String) (username role : String)
    (id : Nat) (roles : List DocumentUserRole) :
    Except Err (List DocumentUserRole) :=
  if !(docActions.contains "manage_share") then
    .error (.authz "not permitted to manage share for Document")
  else if role == "owner" && !(docActions.contains "assign_owner") then
    .error (.authz "not permitted to assign owner for Document")
  else
    .ok (roles ++ [⟨id, username, role⟩])

/-- src/actions/doc.ts second variant, createDocument (lines 770..827):
create_doc gate, INSERT of the document row, then assignDocUserRole for the
requestor with role owner; a failure inside the transaction rolls both inserts
back.  docActions is the action list the oso call computes for the requestor
on the freshly inserted document. -/
def createDocument (auth : Bool) (docActions : List String)
    (requestor org title : String) (freshId : Nat)
    (docs : List Document) (roles : List DocumentUserRole) :
    Except Err Nat × List Document × List DocumentUserRole :=
  if !auth then
    (.error (.authz "not permitted to create documents in Organization"),
      docs, roles)
  else
    match assignDocUserRole docActions requestor "owner" freshId roles with
    | .error e => (.error e, docs, roles)
    | .ok roles2 =>
      (.ok freshId, docs ++ [⟨freshId, org, title, false⟩], roles2)

end DocPerms

namespace UserActions

/-- src/actions/user.ts deleteUser (lines 243..289): delete gate, then DELETE
RETURNING with a row-count check.  A false authorization result aborts before
any mutation. -/
def deleteUser (auth : Bool) (username : String) (users : List User) :
    Except Err Unit × List User :=
  if !auth then
    (.error (.authz "not permitted to delete User"), users)
  else
    let deleted := users.filter fun u => u.username == username
    let users2 := users.filter fun u => !(u.username == username)
    if deleted.length ≠ 1 then
      (.error (.domain "cannot find user"), users2)
    else
      (.ok (), users2)

/-- src/actions/user.ts editUsersRoleByUsername (lines 307..390): empty update
lists return immediately; otherwise one UPDATE joins the submitted
(username, role) pairs against the users table, restricted by the compiled
edit_role filter (the authorized predicate); if the number of updated rows
differs from the number of submitted pairs the transaction is rolled back,
otherwise it commits. -/
def editUsersRoleByUsername (authorized : String → Bool)
    (updates : List (String × String)) (users : List User) :
    Except Err Unit × List User :=
  if updates.length == 0 then (.ok (), users)
  else
    let hit := fun (u : User) =>
      (updates.any fun p => p.1 == u.username) && authorized u.username
    let newRole := fun (u : User) =>
      ((updates.filter fun p => p.1 == u.username).headD ("", u.role)).2
    let users2 := users.map fun u =>
      if hit u then { u with role := newRole u } else u
    let rowCount := (users.filter hit).length
    if rowCount ≠ updates.length then
      (.error (.authz "not permitted to edit role of all submitted users"),
        users)
    else
      (.ok (), users2)

end UserActions

namespace Crm

/-- A row of the opportunities table. -/
structure Opportunity where
  organization : String
  name : String
  territory : String
  amount : Int
  assignee : Option String
  stage : String
deriving DecidableEq, Repr

/-- The value of await client.query(authQuery): a pg result object; allowed
records the outcome the compiled authorization query computed. -/
structure PgResult where
  allowed : Bool
deriving DecidableEq, Repr

/-- JavaScript truthiness of an object value: every object is truthy.
crm.ts lines 223..225 and 430..432 negate the pg result object itself, so the
denial branch is unreachable whatever the authorization query returned. -/
def jsObjectTruthy (r : PgResult) : Bool := true

/-- src/actions/crm.ts createOpportunity (lines 197..256): the authorization
gate tests the truthiness of the pg result object, then the INSERT with stage
research runs. -/
def createOpportunity (authResult : PgResult) (org oppName territory : String)
    (amount : Int) (assignee : Option String) (opps : List Opportunity) :
    Except Err Unit × List Opportunity :=
  if !(jsObjectTruthy authResult) then
    (.error (.authz "Not permitted to create opportunity"), opps)
  else
    (.ok (), opps ++ [⟨org, oppName, territory, amount, assignee, "research"⟩])

/-- src/actions/crm.ts changeOpportunityAssignee (lines 409..458): the same
truthiness gate, then the assignee UPDATE runs. -/
def changeOpportunityAssignee (authResult : PgResult) (org oppName : String)
    (assignee : String) (opps : List Opportunity) :
    Except Err Unit × List Opportunity :=
  if !(jsObjectTruthy authResult) then
    (.error (.authz "Not permitted to assign opportunity"), opps)
  else
    (.ok (), opps.map fun o =>
      if o.organization == org && o.name == oppName then
        { o with assignee := some assignee }
      else o)

end Crm

namespace Emr

/-- A row of the appointments table. -/
structure Appointment where
  id : Nat
  org : String
  medical_staff : String
  patient : String
  status : String
deriving DecidableEq, Repr

/-- A record payload (emr.ts Record argument). -/
structure RecordRow where
  internal_text : String
  public_text : String
deriving DecidableEq, Repr

/-- The permission emr.ts updateAppointment requires for each requested
transition (lines 66..71): complete for scheduled to completed, cancel for
scheduled to canceled. -/
def permissionFor (status : String) : String :=
  if status == "completed" then "complete"
  else if status == "canceled" then "cancel"
  else ""

/-- src/actions/emr.ts updateAppointment (lines 53..111): authorizeUser
evaluates the required permission against the EMR policy over the fact-store
snapshot; a denial throws before the transaction starts; then the record
handling (a record requires a completed transition and vice versa) and the
status UPDATE run inside the transaction. -/
def updateAppointment (s : FactStore) (fuel : Nat) (requestor : String)
    (appointment : Nat) (status : String) (record : Option RecordRow)
    (appts : List Appointment) (recs : List RecordRow) :
    Except Err Unit × List Appointment × List RecordRow :=
  let appt : Resource := ⟨"Appointment", toString appointment⟩
  let editAuth :=
    evaluate emrPolicy s (userRes requestor) (permissionFor status) appt fuel
  if !editAuth then
    (.error (.authz "not permitted to update Appointment"), appts, recs)
  else
    match record with
    | some r =>
      if status ≠ "completed" then
        (.error (.domain "Cannot add record to non-complete appointment"),
          appts, recs)
      else
        (.ok (),
          appts.map fun a =>
            if a.id == appointment then { a with status := status } else a,
          recs ++ [r])
    | none =>
      if status == "completed" then
        (.error (.domain "Cannot complete appointment without record"),
          appts, recs)
      else
        (.ok (),
          appts.map fun a =>
            if a.id == appointment then { a with status := status } else a,
          recs)

end Emr

/-! ## Concrete scenario data (spec section 8 scenarios and witnesses) -/

/-- The acme organization. -/
def acmeOrg : Resource := ⟨"Organization", "acme"⟩

/-- The document of scenario B. -/
def docB : Resource := ⟨"Document", "7"⟩

/-- Scenario B facts: carol holds editor on the document. -/
def factsEditor : FactStore := [roleFact "carol" "editor" docB]

/-- Facts giving bob the owner role on the document. -/
def factsOwner : FactStore := [roleFact "bob" "owner" docB]

/-- A document-sharing store exercising RBAC, ReBAC and ABAC at once: carol is
editor on the document, dan is admin on acme (to which the document belongs),
eve is member on acme, and the document is public. -/
def factsDocMixed : FactStore :=
  [roleFact "carol" "editor" docB,
   relFact docB "belongs_to" acmeOrg,
   roleFact "dan" "admin" acmeOrg,
   roleFact "eve" "member" acmeOrg,
   ⟨"is_public", [.res docB]⟩]

/-- The USA territory (scenario D). -/
def usaT : Resource := ⟨"Territory", "USA"⟩

/-- The Northeast territory (scenario D). -/
def northeastT : Resource := ⟨"Territory", "Northeast"⟩

/-- The NY territory (scenario D). -/
def nyT : Resource := ⟨"Territory", "NY"⟩

/-- Scenario D facts: the ancestor chain USA over Northeast over NY as seeded
by env_template_db_init.sql (territory_hierarchy rows (USA, Northeast) and
(Northeast, NY)), with amy responsible for USA. -/
def factsTerritory : FactStore :=
  [relFact nyT "ancestor" northeastT,
   relFact northeastT "ancestor" usaT,
   roleFact "amy" "responsible" usaT]

/-- The appointment resource used by the terminal-state scenario. -/
def apptRes : Resource := ⟨"Appointment", "1"⟩

/-- An EMR store in which the appointment is already completed and meg, its
medical staff, is also administrative staff of the scheduling organization:
every privilege relevant to complete/cancel is present, only the
scheduled-status attribute is missing. -/
def factsApptCompleted : FactStore :=
  [relFact apptRes "medical_staff" (userRes "meg"),
   relFact apptRes "scheduled" acmeOrg,
   roleFact "meg" "administrative_staff" acmeOrg,
   roleFact "meg" "medical_staff" acmeOrg,
   ⟨"appointment_status", [.res apptRes, .str "completed"]⟩]

/-! # Theorems

Helper lemmas about the policy engine, then one theorem per specification
claim, with witnesses and counterexamples where required. -/

theorem contains_iff {s : FactStore} {g : GAtom} :
    s.contains g = true ↔ g ∈ s := List.elem_iff

theorem storeResources_mono {s s' : FactStore} (h : ∀ a, a ∈ s → a ∈ s') :
    ∀ r, r ∈ storeResources s → r ∈ storeResources s' := by
  intro r hr
  simp only [storeResources, List.mem_flatMap] at hr ⊢
  obtain ⟨a, ha, hra⟩ := hr
  exact ⟨a, h a ha, hra⟩

theorem candidates_mono (pol : Policy) {s s' : FactStore}
    (h : ∀ a, a ∈ s → a ∈ s') (extra : List Resource) (ty : String) :
    ∀ v, v ∈ candidates pol s extra ty → v ∈ candidates pol s' extra ty := by
  intro v hv
  simp only [candidates, List.mem_map, List.mem_filter, List.mem_append] at hv ⊢
  obtain ⟨r, ⟨hmem, hty⟩, rfl⟩ := hv
  refine ⟨r, ⟨?_, hty⟩, rfl⟩
  rcases hmem with (hs | hp) | he
  · exact Or.inl (Or.inl (storeResources_mono h r hs))
  · exact Or.inl (Or.inr hp)
  · exact Or.inr he

theorem product_length {cs : List (List Val)} {env : List Val}
    (h : env ∈ product cs) : env.length = cs.length := by
  induction cs generalizing env with
  | nil =>
    simp only [product, List.mem_singleton] at h
    simp [h]
  | cons c rest ih =>
    simp only [product, List.mem_flatMap, List.mem_map] at h
    obtain ⟨v, hv, e, he, rfl⟩ := h
    simp [ih he]

theorem product_mono {tys : List String} {f g : String → List Val}
    (h : ∀ ty v, v ∈ f ty → v ∈ g ty) :
    ∀ env, env ∈ product (tys.map f) → env ∈ product (tys.map g) := by
  induction tys with
  | nil => intro env he; simpa [product] using he
  | cons ty rest ih =>
    intro env he
    simp only [List.map_cons, product, List.mem_flatMap, List.mem_map]
      at he ⊢
    obtain ⟨v, hv, e, he, rfl⟩ := he
    exact ⟨v, h ty v hv, e, ih e he, rfl⟩

theorem holds_mono_store (pol : Policy) {s s' : FactStore}
    (hsub : ∀ a, a ∈ s → a ∈ s') (extra : List Resource) :
    ∀ n g, holds pol s extra n g = true → holds pol s' extra n g = true := by
  intro n
  induction n with
  | zero =>
    intro g hg
    simp only [holds] at hg ⊢
    exact contains_iff.mpr (hsub g (contains_iff.mp hg))
  | succ n ih =>
    intro g hg
    simp only [holds, Bool.or_eq_true] at hg ⊢
    rcases hg with hc | hr
    · exact Or.inl (contains_iff.mpr (hsub g (contains_iff.mp hc)))
    · right
      simp only [List.any_eq_true] at hr ⊢
      obtain ⟨r, hrmem, env, henv, hcond⟩ := hr
      refine ⟨r, hrmem, env,
        product_mono (fun ty v => candidates_mono pol hsub extra ty v) env henv,
        ?_⟩
      simp only [Bool.and_eq_true] at hcond ⊢
      refine ⟨hcond.1, ?_⟩
      simp only [List.all_eq_true] at hcond ⊢
      intro b hb
      exact ih _ (hcond.2 b hb)

theorem holds_mono_fuel (pol : Policy) (s : FactStore) (extra : List Resource) :
    ∀ n g, holds pol s extra n g = true →
      holds pol s extra (n + 1) g = true := by
  intro n
  induction n with
  | zero =>
    intro g hg
    simp only [holds, Bool.or_eq_true] at hg ⊢
    exact Or.inl hg
  | succ n ih =>
    intro g hg
    simp only [holds, Bool.or_eq_true] at hg ⊢
    rcases hg with hc | hr
    · exact Or.inl hc
    · right
      simp only [List.any_eq_true] at hr ⊢
      obtain ⟨r, hrmem, env, henv, hcond⟩ := hr
      refine ⟨r, hrmem, env, henv, ?_⟩
      simp only [Bool.and_eq_true] at hcond ⊢
      refine ⟨hcond.1, ?_⟩
      simp only [List.all_eq_true] at hcond ⊢
      intro b hb
      exact ih _ (hcond.2 b hb)

theorem holds_fuel_le (pol : Policy) (s : FactStore) (extra : List Resource)
    {n m : Nat} (hnm : n ≤ m) {g : GAtom}
    (h : holds pol s extra n g = true) : holds pol s extra m g = true := by
  induction m with
  | zero =>
    have : n = 0 := Nat.le_zero.mp hnm
    simpa [this] using h
  | succ m ih =>
    rcases Nat.lt_or_ge n (m + 1) with hlt | hge
    · exact holds_mono_fuel pol s extra m _ (ih (Nat.lt_succ_iff.mp hlt))
    · have : n = m + 1 := Nat.le_antisymm hnm hge
      simpa [this] using h

theorem boolExt {a b : Bool} (h : a = true ↔ b = true) : a = b := by
  cases a <;> cases b <;> simp_all

theorem listAnyCongr {α : Type} {l : List α} {p q : α → Bool}
    (h : ∀ a ∈ l, p a = q a) : l.any p = l.any q := by
  induction l with
  | nil => rfl
  | cons a l ih =>
    simp only [List.any_cons]
    rw [h a (by simp), ih fun b hb => h b (by simp [hb])]

theorem listAllCongr {α : Type} {l : List α} {p q : α → Bool}
    (h : ∀ a ∈ l, p a = q a) : l.all p = l.all q := by
  induction l with
  | nil => rfl
  | cons a l ih =>
    simp only [List.all_cons]
    rw [h a (by simp), ih fun b hb => h b (by simp [hb])]

theorem listAnyMap {α β : Type} (l : List α) (f : α → β) (p : β → Bool) :
    (l.map f).any p = l.any fun a => p (f a) := by
  induction l with
  | nil => rfl
  | cons a l ih => simp [List.any_cons, ih]

theorem listAllMap {α β : Type} (l : List α) (f : α → β) (p : β → Bool) :
    (l.map f).all p = l.all fun a => p (f a) := by
  induction l with
  | nil => rfl
  | cons a l ih => simp [List.all_cons, ih]

theorem dPTm_lift (selfV : Val) (vs env : List Val) (t : PTm) :
    dPTm selfV (vs ++ env) (PTm.lift vs.length t) = dPTm selfV env t := by
  cases t with
  | bvar n =>
    simp only [PTm.lift, dPTm]
    rw [List.getD_append_right _ _ _ _ (by omega), Nat.add_sub_cancel]
  | selfT => rfl
  | lit v => rfl

theorem dPTm_toPTm (selfV : Val) {vs : List Val} {k : Nat} (hk : vs.length = k)
    (env : List Val) {t : Term} (hwf : Term.wfB k t = true) :
    dPTm selfV (vs ++ env) (toPTm t) = substTerm vs t := by
  cases t with
  | var i =>
    simp only [Term.wfB, decide_eq_true_eq] at hwf
    simp only [toPTm, dPTm, substTerm]
    exact List.getD_append _ _ _ _ (by omega)
  | cnst v => rfl

theorem denote_orAll (pol : Policy) (s : FactStore) (extra : List Resource)
    (selfV : Val) (ps : List CPred) (env : List Val) :
    denote pol s extra selfV (orAll ps) env =
      ps.any fun p => denote pol s extra selfV p env := by
  induction ps with
  | nil => rfl
  | cons p rest ih => simp [orAll, denote, ih]

theorem denote_andAll (pol : Policy) (s : FactStore) (extra : List Resource)
    (selfV : Val) (ps : List CPred) (env : List Val) :
    denote pol s extra selfV (andAll ps) env =
      ps.all fun p => denote pol s extra selfV p env := by
  induction ps with
  | nil => rfl
  | cons p rest ih => simp [andAll, denote, ih]

theorem denote_eqArgs (pol : Policy) (s : FactStore) (extra : List Resource)
    (selfV : Val) :
    ∀ (la lb : List PTm) (env : List Val),
      (denote pol s extra selfV (eqArgs la lb) env = true) ↔
        la.map (dPTm selfV env) = lb.map (dPTm selfV env) := by
  intro la
  induction la with
  | nil =>
    intro lb env
    cases lb with
    | nil => simp [eqArgs, denote]
    | cons b lb => simp [eqArgs, denote]
  | cons a la ih =>
    intro lb env
    cases lb with
    | nil => simp [eqArgs, denote]
    | cons b lb =>
      simp [eqArgs, denote, Bool.and_eq_true, beq_iff_eq, ih]

theorem wf_of_mem {pol : Policy} (hwf : polWf pol = true) {r : Rule}
    (hr : r ∈ pol) :
    Atom.wfB r.varTys.length r.head = true ∧
      ∀ b ∈ r.body, Atom.wfB r.varTys.length b = true := by
  simp only [polWf, List.all_eq_true] at hwf
  have h := hwf r hr
  simp only [Rule.wfB, Bool.and_eq_true, List.all_eq_true] at h
  exact h

theorem instPAtom_toPTm (selfV : Val) {vs : List Val} {k : Nat}
    (hk : vs.length = k) (env : List Val) {a : Atom}
    (hwf : Atom.wfB k a = true) :
    instPAtom selfV (vs ++ env) ⟨a.pred, a.args.map toPTm⟩ = substAtom vs a := by
  simp only [instPAtom, substAtom, List.map_map, GAtom.mk.injEq, true_and]
  apply List.map_congr_left
  intro t ht
  simp only [Atom.wfB, List.all_eq_true] at hwf
  exact dPTm_toPTm selfV hk env (hwf t ht)

/-- Compiler correctness: interpreting the compiled predicate tree against a
fact store agrees with the point evaluator at every unfolding depth, for every
well-formed policy, goal pattern, and environment. -/
theorem denote_compile (pol : Policy) (hwf : polWf pol = true) (s : FactStore)
    (extra : List Resource) (selfV : Val) :
    ∀ (n : Nat) (g : PAtom) (env : List Val),
      denote pol s extra selfV (compile pol n g) env =
        holds pol s extra n (instPAtom selfV env g) := by
  intro n
  induction n with
  | zero => intro g env; rfl
  | succ n ih =>
    intro g env
    simp only [compile, denote, holds]
    congr 1
    rw [denote_orAll, listAnyMap]
    apply listAnyCongr
    intro r hr
    by_cases hpred : (r.head.pred == g.pred) = true
    · simp only [hpred, if_pos rfl, denote]
      apply listAnyCongr
      intro vs hvs
      have hlen : vs.length = r.varTys.length := by
        have := product_length hvs
        simpa using this
      have hhead :
          denote pol s extra selfV
            (eqArgs (r.head.args.map toPTm)
              (g.args.map (PTm.lift r.varTys.length))) (vs ++ env) =
            (substAtom vs r.head == instPAtom selfV env g) := by
        apply boolExt
        rw [denote_eqArgs, beq_iff_eq]
        have hl : (r.head.args.map toPTm).map (dPTm selfV (vs ++ env)) =
            r.head.args.map (substTerm vs) := by
          rw [List.map_map]
          apply List.map_congr_left
          intro t ht
          have hw := (wf_of_mem hwf hr).1
          simp only [Atom.wfB, List.all_eq_true] at hw
          exact dPTm_toPTm selfV hlen env (hw t ht)
        have hg2 : (g.args.map (PTm.lift r.varTys.length)).map
            (dPTm selfV (vs ++ env)) = g.args.map (dPTm selfV env) := by
          rw [List.map_map]
          apply List.map_congr_left
          intro t ht
          rw [← hlen]
          exact dPTm_lift selfV vs env t
        rw [hl, hg2]
        constructor
        · intro hargs
          simp only [substAtom, instPAtom, GAtom.mk.injEq]
          exact ⟨beq_iff_eq.mp hpred, hargs⟩
        · intro heq
          simp only [substAtom, instPAtom, GAtom.mk.injEq] at heq
          exact heq.2
      have hbody :
          denote pol s extra selfV
            (andAll (r.body.map fun b =>
              compile pol n ⟨b.pred, b.args.map toPTm⟩)) (vs ++ env) =
            (r.body.all fun b => holds pol s extra n (substAtom vs b)) := by
        rw [denote_andAll, listAllMap]
        apply listAllCongr
        intro b hb
        rw [ih ⟨b.pred, b.args.map toPTm⟩ (vs ++ env)]
        rw [instPAtom_toPTm selfV hlen env ((wf_of_mem hwf hr).2 b hb)]
      rw [hhead, hbody]
    · simp only [Bool.not_eq_true] at hpred
      simp only [hpred, Bool.false_eq_true, if_false, denote]
      symm
      rw [List.any_eq_false]
      intro vs hvs
      simp only [Bool.and_eq_true, beq_iff_eq, not_and]
      intro heq
      have : r.head.pred = g.pred := by
        have := congrArg GAtom.pred heq
        simpa [substAtom, instPAtom] using this
      exact absurd this (ne_of_beq_false hpred)

theorem listSelects_eq_evaluate (pol : Policy) (hwf : polWf pol = true)
    (s : FactStore) (p : Resource) (a : String) (T : String) (fuel : Nat)
    (id : String) :
    listSelects pol s p a T fuel id = evaluate pol s p a ⟨T, id⟩ fuel := by
  unfold listSelects compileFilter evaluate
  rw [denote_compile pol hwf s [p, ⟨T, id⟩] (Val.res ⟨T, id⟩) fuel _ []]
  rfl

set_option maxRecDepth 100000 in
theorem repoPolicies_wf : repoPolicies.all polWf = true := by decide

/-- C2: for every principal, action, resource type, fact-store snapshot and
unfolding depth, and for every policy shipped in the repository, the compiled
list predicate selects a candidate resource id exactly when the point check
evaluates to true on it; consequently filtering any candidate list by the
compiled predicate yields exactly the rows the point check accepts. -/
theorem filter_point_equivalence (pol : Policy) (hpol : pol ∈ repoPolicies)
    (s : FactStore) (p : Resource) (a : String) (T : String) (fuel : Nat)
    (ids : List String) :
    (∀ id, listSelects pol s p a T fuel id =
      evaluate pol s p a ⟨T, id⟩ fuel) ∧
    ids.filter (listSelects pol s p a T fuel) =
      ids.filter (fun id => evaluate pol s p a ⟨T, id⟩ fuel) := by
  have hwf : polWf pol = true := by
    have hall := repoPolicies_wf
    simp only [List.all_eq_true] at hall
    exact hall pol hpol
  refine ⟨fun id => listSelects_eq_evaluate pol hwf s p a T fuel id, ?_⟩
  apply List.filter_congr
  intro id _
  exact listSelects_eq_evaluate pol hwf s p a T fuel id

set_option maxRecDepth 100000 in
/-- Witness for C2 at a concrete input: the document-sharing policy on the
mixed RBAC/ReBAC/ABAC store, listing readable documents for eve; the filter
selects document 7 and the point check agrees. -/
theorem filter_point_equivalence_witness :
    (listSelects docPolicy factsDocMixed (userRes "eve") "read" "Document" 6 "7"
        = evaluate docPolicy factsDocMixed (userRes "eve") "read" docB 6) ∧
      evaluate docPolicy factsDocMixed (userRes "eve") "read" docB 6 = true := by
  have h := filter_point_equivalence docPolicy (by simp [repoPolicies])
    factsDocMixed (userRes "eve") "read" "Document" 6 ["7"]
  exact ⟨h.1 "7", by decide⟩

/-- C5: for every policy shipped in the repository, evaluation is monotone in
the fact store: adding facts (role assignments, relation edges, global role
assignments, or attribute facts) never flips a point check from true to
false.  The policies are negation-free, so monotonicity holds for the whole
store extension order. -/
theorem evaluate_monotone (pol : Policy) (hpol : pol ∈ repoPolicies)
    {s s' : FactStore} (hsub : ∀ a, a ∈ s → a ∈ s')
    (p : Resource) (a : String) (r : Resource) (fuel : Nat)
    (h : evaluate pol s p a r fuel = true) :
    evaluate pol s' p a r fuel = true :=
  holds_mono_store pol hsub [p, r] fuel _ h

set_option maxRecDepth 100000 in
/-- Witness for C5: carol keeps edit on the document after a global-admin
fact for an unrelated user is added to the store. -/
theorem evaluate_monotone_witness :
    evaluate docPolicy (factsEditor ++ [globalRoleFact "zed" "admin"])
      (userRes "carol") "edit" docB 6 = true :=
  evaluate_monotone docPolicy (by simp [repoPolicies])
    (fun a ha => List.mem_append_left _ ha)
    (userRes "carol") "edit" docB 6 (by decide)

set_option maxRecDepth 1000000 in
/-- C6: scenario B of the spec.  With carol holding only editor on the
document, edit evaluates true and delete false; with bob holding owner, every
permission granted along the owner-manager-editor-viewer implication chain
(delete, assign_owner, set_public, manage_share, edit, read) evaluates
true. -/
theorem document_role_chain_scenario :
    (evaluate docPolicy factsEditor (userRes "carol") "edit" docB 6 = true ∧
      evaluate docPolicy factsEditor (userRes "carol") "delete" docB 6 = false) ∧
    (["delete", "assign_owner", "set_public", "manage_share", "edit",
        "read"].all
      (fun a => evaluate docPolicy factsOwner (userRes "bob") a docB 6) =
        true) := by
  decide

set_option maxRecDepth 100000 in
/-- C7: scenario D of the spec.  With the recursive ancestor chain USA over
Northeast over NY and amy responsible for USA, manage_responsibility on NY
evaluates true by transitive traversal of the ancestor relation; the
evaluator is total, and the result is stable under every larger traversal
budget. -/
theorem territory_ancestor_scenario :
    evaluate crmPolicy factsTerritory (userRes "amy") "manage_responsibility"
        nyT 3 = true ∧
      ∀ n : Nat,
        evaluate crmPolicy factsTerritory (userRes "amy")
          "manage_responsibility" nyT (3 + n) = true := by
  have h3 : evaluate crmPolicy factsTerritory (userRes "amy")
      "manage_responsibility" nyT 3 = true := by decide
  refine ⟨h3, ?_⟩
  intro n
  induction n with
  | zero => exact h3
  | succ n ih => exact holds_mono_fuel crmPolicy factsTerritory _ _ _ ih

theorem contains_eq_false_of_not_mem {s : FactStore} {g : GAtom} (h : g ∉ s) :
    s.contains g = false :=
  Bool.eq_false_iff.mpr fun hc => h (contains_iff.mp hc)

theorem holds_no_rule_head (pol : Policy) (s : FactStore)
    (extra : List Resource) {p : String}
    (hp : pol.all (fun r => !(r.head.pred == p)) = true) :
    ∀ (n : Nat) (args : List Val),
      holds pol s extra n ⟨p, args⟩ = s.contains ⟨p, args⟩ := by
  intro n args
  cases n with
  | zero => rfl
  | succ n =>
    simp only [holds]
    have hany : (pol.any fun r =>
        (product (r.varTys.map (candidates pol s extra))).any fun env =>
          substAtom env r.head == (⟨p, args⟩ : GAtom) &&
            r.body.all fun b => holds pol s extra n (substAtom env b)) =
          false := by
      rw [List.any_eq_false]
      intro r hr
      simp only [Bool.not_eq_true]
      rw [List.any_eq_false]
      intro env _
      simp only [Bool.and_eq_true, beq_iff_eq, not_and]
      intro heq
      exfalso
      have hpr : r.head.pred = p := by
        have := congrArg GAtom.pred heq
        simpa [substAtom] using this
      simp only [List.all_eq_true] at hp
      have := hp r hr
      simp [hpr] at this
    rw [hany, Bool.or_false]

set_option maxRecDepth 100000 in
theorem emr_terminal_permission_false (s : FactStore)
    (hnp : ∀ a ∈ s, a.pred ≠ "has_permission")
    (appt : Resource)
    (hsched :
      (⟨"appointment_status", [.res appt, .str "scheduled"]⟩ : GAtom) ∉ s)
    (u perm : String) (hperm : perm = "complete" ∨ perm = "cancel")
    (extra : List Resource) (fuel : Nat) :
    holds emrPolicy s extra fuel
      ⟨"has_permission", [.res (userRes u), .str perm, .res appt]⟩ = false := by
  have hcont : s.contains
      (⟨"has_permission", [.res (userRes u), .str perm, .res appt]⟩ : GAtom) =
        false :=
    contains_eq_false_of_not_mem fun hmem => hnp _ hmem rfl
  have hstat : ∀ n, holds emrPolicy s extra n
      (⟨"appointment_status", [.res appt, .str "scheduled"]⟩ : GAtom) =
        false := by
    intro n
    rw [holds_no_rule_head emrPolicy s extra (by decide) n]
    exact contains_eq_false_of_not_mem hsched
  rcases hperm with rfl | rfl <;>
  · cases fuel with
    | zero => simpa [holds] using hcont
    | succ n =>
      simp only [holds, hcont, Bool.false_or]
      rw [List.any_eq_false]
      intro r hr
      simp only [Bool.not_eq_true]
      simp only [emrPolicy, List.mem_cons, List.not_mem_nil, or_false] at hr
      rcases hr with rfl | rfl | rfl | rfl | rfl | rfl | rfl | rfl | rfl |
        rfl | rfl | rfl | rfl | rfl | rfl | rfl <;>
      · rw [List.any_eq_false]
        intro env henv
        simp only [Bool.not_eq_true]
        first
        | (simp [substAtom, substTerm, hasPermA, hasRoleA, hasRelA,
            hasGlobalA, ts, tv]; done)
        | (rw [Bool.eq_false_iff]
           intro hcomb
           rw [Bool.and_eq_true] at hcomb
           obtain ⟨heq, hall⟩ := hcomb
           rw [beq_iff_eq] at heq
           have h1 : substTerm env (tv 1) = Val.res appt := by
             have h2 := congrArg (fun g : GAtom => g.args.getD 2 (Val.str ""))
               heq
             simpa [substAtom, hasPermA, ts, tv] using h2
           rw [List.all_eq_true] at hall
           have hs := hall ⟨"appointment_status", [tv 1, ts "scheduled"]⟩
             (by simp)
           rw [show substAtom env ⟨"appointment_status", [tv 1, ts "scheduled"]⟩
               = ⟨"appointment_status",
                   [substTerm env (tv 1), .str "scheduled"]⟩ from rfl,
             h1] at hs
           rw [hstat n] at hs
           exact absurd hs (by simp))

/-- C8 (amended): the scheduled-to-completed and scheduled-to-canceled
transitions are gated by the distinct permissions complete and cancel;
completed and canceled are mutually exclusive values of the single status
field; and a call to updateAppointment targeting an appointment whose stored
status is no longer scheduled is rejected for every requestor and every
role/relation fact store — because the policy conjoins
appointment_status(resource, "scheduled") onto both gating permissions — with
the appointment and record tables unchanged.  The rejection surfaces as the
authorization-denial error of the permission gate, not as a separate domain
error. -/
theorem updateAppointment_terminal_always_rejected
    (s : FactStore) (hnp : ∀ a ∈ s, a.pred ≠ "has_permission")
    (appointment : Nat)
    (hsched : (⟨"appointment_status",
        [.res ⟨"Appointment", toString appointment⟩, .str "scheduled"]⟩ :
          GAtom) ∉ s)
    (requestor status : String)
    (hstatus : status = "completed" ∨ status = "canceled")
    (record : Option Emr.RecordRow) (appts : List Emr.Appointment)
    (recs : List Emr.RecordRow) (fuel : Nat) :
    Emr.permissionFor "completed" = "complete" ∧
    Emr.permissionFor "canceled" = "cancel" ∧
    ("complete" : String) ≠ "cancel" ∧
    (∀ a : Emr.Appointment,
      ¬(a.status = "completed" ∧ a.status = "canceled")) ∧
    Emr.updateAppointment s fuel requestor appointment status record appts
        recs =
      (.error (.authz "not permitted to update Appointment"), appts, recs) := by
  refine ⟨rfl, rfl, by decide, ?_, ?_⟩
  · intro a ⟨h1, h2⟩
    rw [h1] at h2
    exact absurd h2 (by decide)
  · have hfalse : evaluate emrPolicy s (userRes requestor)
        (Emr.permissionFor status) ⟨"Appointment", toString appointment⟩
          fuel = false := by
      unfold evaluate
      apply emr_terminal_permission_false s hnp _ hsched
      rcases hstatus with rfl | rfl
      · exact Or.inl (by decide)
      · exact Or.inr (by decide)
    simp [Emr.updateAppointment, hfalse]

set_option maxRecDepth 1000000 in
/-- Counterexample for C8 as stated: on an already-completed appointment, the
rejection is the authorization-denial error of the permission gate (Err.authz,
thrown by the not-permitted branch), not a domain error raised independently
of authorization — even for meg, the appointment's own medical staff and an
administrative staff member, who is exactly the requestor the policy would
authorize; the same call succeeds when the appointment is still scheduled. -/
theorem updateAppointment_terminal_rejection_is_authz :
    Emr.updateAppointment factsApptCompleted 6 "meg" 1 "completed"
        (some ⟨"notes", "pub"⟩) [⟨1, "acme", "meg", "pat", "completed"⟩] [] =
      (.error (.authz "not permitted to update Appointment"),
        [⟨1, "acme", "meg", "pat", "completed"⟩], []) ∧
    Emr.updateAppointment
        [relFact apptRes "medical_staff" (userRes "meg"),
         ⟨"appointment_status", [.res apptRes, .str "scheduled"]⟩]
        6 "meg" 1 "completed" (some ⟨"notes", "pub"⟩)
        [⟨1, "acme", "meg", "pat", "scheduled"⟩] [] =
      (.ok (), [⟨1, "acme", "meg", "pat", "completed"⟩],
        [⟨"notes", "pub"⟩]) := by
  constructor
  · rfl
  · rfl

/-- C1 (failing input): in the doc_perms.ts variant of updateDocUserRole, a
requestor holding manage_share (without assign_owner) demotes the document's
only owner to editor and the transaction commits, leaving the document with
zero owner rows — the owner guard compares the returned row object with the
string owner, which is always false, so the owner-count re-check never runs.
The doc.ts variant of the same mutation rejects the same input and leaves the
row unchanged. -/
theorem updateDocUserRole_perms_commits_zero_owners :
    DocPerms.updateDocUserRole ["manage_share"] 1 "alice" "editor"
        [⟨1, "alice", "owner"⟩] =
      (.ok (), [⟨1, "alice", "editor"⟩]) ∧
    ownerCount [⟨1, "alice", "owner"⟩] 1 = 1 ∧
    ownerCount [⟨1, "alice", "editor"⟩] 1 = 0 ∧
    DocActions.updateDocUserRole true true true 1 "alice" "editor"
        [⟨1, "alice", "owner"⟩] =
      (.error (.domain "Document must have at least one owner"),
        [⟨1, "alice", "owner"⟩]) :=
  ⟨rfl, rfl, rfl, rfl⟩

/-- C3 (failing input): createOpportunity and changeOpportunityAssignee gate
the write on the truthiness of the pg result object, which is always truthy,
so the write proceeds and the table is mutated even when the compiled
authorization query returned a denial; by contrast deleteUser and deleteDoc
abort with a denial error and leave their tables unchanged when their
permission evaluates false. -/
theorem createOpportunity_mutates_despite_denial :
    Crm.createOpportunity ⟨false⟩ "acme" "opp1" "NY" 100 none [] =
      (.ok (), [⟨"acme", "opp1", "NY", 100, none, "research"⟩]) ∧
    Crm.changeOpportunityAssignee ⟨false⟩ "acme" "opp1" "bob"
        [⟨"acme", "opp1", "NY", 100, none, "research"⟩] =
      (.ok (), [⟨"acme", "opp1", "NY", 100, some "bob", "research"⟩]) ∧
    UserActions.deleteUser false "bob" [⟨"bob", "acme", "member"⟩] =
      (.error (.authz "not permitted to delete User"),
        [⟨"bob", "acme", "member"⟩]) ∧
    DocActions.deleteDoc false 1 [⟨1, "acme", "t", false⟩] =
      (.error (.authz "not permitted to delete Document"),
        [⟨1, "acme", "t", false⟩]) :=
  ⟨rfl, rfl, rfl, rfl⟩

/-- C10: in both variants of deleteDocUserRole, when the requestor passes the
manage_share gate but the named user has no role row on the document, the
DELETE returns no rows and the read of rows[0].role raises a TypeError (not a
clean domain error); the transaction rolls back and document_user_roles is
unchanged. -/
theorem deleteDocUserRole_missing_role_typeError
    (id : Nat) (username : String) (db : List DocumentUserRole)
    (assignOwnerAuth : Bool) (docActions : List String)
    (hms : docActions.contains "manage_share" = true)
    (hnone : ∀ r ∈ db, ¬(r.document_id = id ∧ r.username = username)) :
    DocActions.deleteDocUserRole true assignOwnerAuth id username db =
      (.error .typeError, db) ∧
    DocPerms.deleteDocUserRole docActions id username db =
      (.error .typeError, db) := by
  have hdel : db.filter
      (fun r => r.document_id == id && r.username == username) = [] := by
    rw [List.filter_eq_nil_iff]
    intro r hr
    simp only [Bool.and_eq_true, beq_iff_eq]
    exact fun h => hnone r hr ⟨h.1, h.2⟩
  constructor
  · simp [DocActions.deleteDocUserRole, hdel]
  · have hms2 : "manage_share" ∈ docActions := List.elem_iff.mp hms
    simp [DocPerms.deleteDocUserRole, hdel, hms2]

/-- Witness for C10: document 1 has only alice as owner; deleting the role of
ghost (who has no row) raises the TypeError and leaves the table unchanged in
both variants. -/
theorem deleteDocUserRole_missing_role_typeError_witness :
    DocActions.deleteDocUserRole true true 1 "ghost"
        [⟨1, "alice", "owner"⟩] =
      (.error .typeError, [⟨1, "alice", "owner"⟩]) ∧
    DocPerms.deleteDocUserRole ["manage_share"] 1 "ghost"
        [⟨1, "alice", "owner"⟩] =
      (.error .typeError, [⟨1, "alice", "owner"⟩]) :=
  deleteDocUserRole_missing_role_typeError 1 "ghost" [⟨1, "alice", "owner"⟩]
    true ["manage_share"] (by decide) (by decide)

/-- C9: in both createDocument variants, every successful call commits a
document row with public false under the fresh id, and the role table holds
exactly one row for that document: the creating requestor with role owner —
so a new document satisfies the at-least-one-owner invariant from birth; and
every failing call leaves both tables without any row for the fresh id (the
transaction rolls back both inserts). -/
theorem createDocument_owner_invariant
    (auth : Bool) (requestor title org : String) (users : List User)
    (docActions : List String) (freshId : Nat)
    (docs : List Document) (roles : List DocumentUserRole)
    (hfreshR : ∀ r ∈ roles, r.document_id ≠ freshId)
    (hfreshD : ∀ d ∈ docs, d.id ≠ freshId) :
    (∀ docId docs2 roles2,
        DocActions.createDocument auth requestor title users freshId docs
            roles = (.ok docId, docs2, roles2) →
        docId = freshId ∧
          (∃ o, (⟨freshId, o, title, false⟩ : Document) ∈ docs2) ∧
          roles2.filter (fun r => r.document_id == freshId) =
            [⟨freshId, requestor, "owner"⟩] ∧
          1 ≤ ownerCount roles2 freshId) ∧
    (∀ e docs2 roles2,
        DocActions.createDocument auth requestor title users freshId docs
            roles = (.error e, docs2, roles2) →
        (∀ d ∈ docs2, d.id ≠ freshId) ∧
          (∀ r ∈ roles2, r.document_id ≠ freshId)) ∧
    (∀ docId docs2 roles2,
        DocPerms.createDocument auth docActions requestor org title freshId
            docs roles = (.ok docId, docs2, roles2) →
        docId = freshId ∧ (⟨freshId, org, title, false⟩ : Document) ∈ docs2 ∧
          roles2.filter (fun r => r.document_id == freshId) =
            [⟨freshId, requestor, "owner"⟩] ∧
          1 ≤ ownerCount roles2 freshId) ∧
    (∀ e docs2 roles2,
        DocPerms.createDocument auth docActions requestor org title freshId
            docs roles = (.error e, docs2, roles2) →
        (∀ d ∈ docs2, d.id ≠ freshId) ∧
          (∀ r ∈ roles2, r.document_id ≠ freshId)) := by
  have hnilR : roles.filter (fun r => r.document_id == freshId) = [] := by
    rw [List.filter_eq_nil_iff]
    intro r hr
    simp [hfreshR r hr]
  have hfilter :
      (roles ++ ([⟨freshId, requestor, "owner"⟩] : List DocumentUserRole)).filter
          (fun r => r.document_id == freshId) =
        [⟨freshId, requestor, "owner"⟩] := by
    rw [List.filter_append, hnilR]
    simp
  have hcount :
      1 ≤ ownerCount (roles ++ [⟨freshId, requestor, "owner"⟩]) freshId := by
    unfold ownerCount
    rw [List.filter_append]
    simp
  refine ⟨?_, ?_, ?_, ?_⟩
  · intro docId docs2 roles2 h
    unfold DocActions.createDocument at h
    cases auth with
    | false => exact absurd h (by simp)
    | true =>
      simp only [Bool.not_true, Bool.false_eq_true, if_false] at h
      cases hu : users.filter (fun u => u.username == requestor) with
      | nil => rw [hu] at h; exact absurd h (by simp)
      | cons u rest =>
        rw [hu] at h
        simp only [Prod.mk.injEq, Except.ok.injEq] at h
        obtain ⟨h1, h2, h3⟩ := h
        subst h1 h2 h3
        exact ⟨rfl, ⟨u.org, by simp⟩, hfilter, hcount⟩
  · intro e docs2 roles2 h
    unfold DocActions.createDocument at h
    cases auth with
    | false =>
      simp only [Bool.not_false, if_true, Prod.mk.injEq,
        Except.error.injEq] at h
      obtain ⟨-, h2, h3⟩ := h
      subst h2 h3
      exact ⟨hfreshD, hfreshR⟩
    | true =>
      simp only [Bool.not_true, Bool.false_eq_true, if_false] at h
      cases hu : users.filter (fun u => u.username == requestor) with
      | nil =>
        rw [hu] at h
        simp only [Prod.mk.injEq, Except.error.injEq] at h
        obtain ⟨-, h2, h3⟩ := h
        subst h2 h3
        exact ⟨hfreshD, hfreshR⟩
      | cons u rest => rw [hu] at h; exact absurd h (by simp)
  · intro docId docs2 roles2 h
    unfold DocPerms.createDocument DocPerms.assignDocUserRole at h
    cases auth with
    | false => exact absurd h (by simp)
    | true =>
      simp only [Bool.not_true, Bool.false_eq_true, if_false] at h
      cases hms : docActions.contains "manage_share" with
      | false => rw [hms] at h; exact absurd h (by simp)
      | true =>
        rw [hms] at h
        cases hao : docActions.contains "assign_owner" with
        | false => rw [hao] at h; exact absurd h (by simp)
        | true =>
          rw [hao] at h
          simp only [Bool.not_true, Bool.and_false, Bool.false_eq_true,
            if_false, Prod.mk.injEq, Except.ok.injEq] at h
          obtain ⟨h1, h2, h3⟩ := h
          subst h1 h2 h3
          exact ⟨rfl, by simp, hfilter, hcount⟩
  · intro e docs2 roles2 h
    unfold DocPerms.createDocument DocPerms.assignDocUserRole at h
    cases auth with
    | false =>
      simp only [Bool.not_false, if_true, Prod.mk.injEq,
        Except.error.injEq] at h
      obtain ⟨-, h2, h3⟩ := h
      subst h2 h3
      exact ⟨hfreshD, hfreshR⟩
    | true =>
      simp only [Bool.not_true, Bool.false_eq_true, if_false] at h
      cases hms : docActions.contains "manage_share" with
      | false =>
        rw [hms] at h
        simp only [Bool.not_false, if_true, Prod.mk.injEq,
          Except.error.injEq] at h
        obtain ⟨-, h2, h3⟩ := h
        subst h2 h3
        exact ⟨hfreshD, hfreshR⟩
      | true =>
        rw [hms] at h
        cases hao : docActions.contains "assign_owner" with
        | false =>
          rw [hao] at h
          simp only [Bool.not_true, Bool.not_false, Bool.and_true,
            Bool.and_false, beq_self_eq_true, Bool.false_eq_true, if_false,
            if_true, eq_self_iff_true, Prod.mk.injEq,
            Except.error.injEq] at h
          obtain ⟨-, h2, h3⟩ := h
          subst h2 h3
          exact ⟨hfreshD, hfreshR⟩
        | true =>
          rw [hao] at h
          simp only [Bool.not_true, Bool.and_false, Bool.false_eq_true,
            if_false] at h
          exact absurd h (by simp)

/-- Witness for C9: a fresh document id 5 created by bob (a member of acme
present in the users table; in the doc_perms variant bob holds manage_share
and assign_owner on the new document) commits with public false and exactly
the owner row for bob. -/
theorem createDocument_owner_invariant_witness :
    (DocActions.createDocument true "bob" "t" [⟨"bob", "acme", "member"⟩] 5
        [] [] = (.ok 5, [⟨5, "acme", "t", false⟩], [⟨5, "bob", "owner"⟩])) ∧
    ([⟨5, "bob", "owner"⟩] : List DocumentUserRole).filter
        (fun r => r.document_id == 5) = [⟨5, "bob", "owner"⟩] := by
  have h := createDocument_owner_invariant true "bob" "t" "acme"
    [⟨"bob", "acme", "member"⟩] ["manage_share", "assign_owner"] 5 [] []
    (by simp) (by simp)
  refine ⟨rfl, ?_⟩
  exact (h.1 5 [⟨5, "acme", "t", false⟩] [⟨5, "bob", "owner"⟩] rfl).2.2.1

theorem filter_key_single {l : List (String × String)}
    (hnd : (l.map Prod.fst).Nodup) {p : String × String} (hp : p ∈ l) :
    (l.filter fun q => q.1 == p.1) = [p] := by
  induction l with
  | nil => cases hp
  | cons a l ih =>
    simp only [List.map_cons, List.nodup_cons] at hnd
    obtain ⟨hna, hnd2⟩ := hnd
    rcases List.mem_cons.mp hp with rfl | hp2
    · rw [List.filter_cons, if_pos (by simp)]
      have hzero : (l.filter fun q => q.1 == p.1) = [] := by
        rw [List.filter_eq_nil_iff]
        intro q hq
        simp only [beq_iff_eq]
        intro hq1
        exact hna (hq1 ▸ List.mem_map_of_mem Prod.fst hq)
      simp [hzero]
    · rw [List.filter_cons, if_neg ?hn]
      · exact ih hnd2 hp2
      case hn =>
        simp only [beq_iff_eq]
        intro h
        exact hna (by rw [h]; exact List.mem_map_of_mem Prod.fst hp2)

theorem all_requested_of_count {users : List User}
    {updates : List (String × String)} {authorized : String → Bool}
    (hu : (updates.map Prod.fst).Nodup)
    (hn : (users.map User.username).Nodup)
    (hcount : (users.filter fun u =>
        (updates.any fun p => p.1 == u.username) &&
          authorized u.username).length = updates.length) :
    ∀ p ∈ updates, authorized p.1 = true ∧ ∃ u ∈ users, u.username = p.1 := by
  have hsub : ∀ x ∈ (users.filter fun u =>
      (updates.any fun p => p.1 == u.username) &&
        authorized u.username).map User.username,
      x ∈ updates.map Prod.fst := by
    intro x hx
    simp only [List.mem_map] at hx
    obtain ⟨u, hu2, rfl⟩ := hx
    have hhit := (List.mem_filter.mp hu2).2
    simp only [Bool.and_eq_true, List.any_eq_true] at hhit
    obtain ⟨⟨p, hp, hpe⟩, -⟩ := hhit
    simp only [beq_iff_eq] at hpe
    exact hpe ▸ List.mem_map_of_mem Prod.fst hp
  have hmnd : ((users.filter fun u =>
      (updates.any fun p => p.1 == u.username) &&
        authorized u.username).map User.username).Nodup :=
    hn.sublist (List.Sublist.map _ (List.filter_sublist users))
  have hcard : ((users.filter fun u =>
      (updates.any fun p => p.1 == u.username) &&
        authorized u.username).map User.username).toFinset =
      (updates.map Prod.fst).toFinset := by
    apply Finset.eq_of_subset_of_card_le
    · intro x hx
      rw [List.mem_toFinset] at hx ⊢
      exact hsub x hx
    · rw [List.toFinset_card_of_nodup hu, List.toFinset_card_of_nodup hmnd]
      simp only [List.length_map]
      rw [hcount]
  intro p hp
  have hpx : p.1 ∈ (users.filter fun u =>
      (updates.any fun p => p.1 == u.username) &&
        authorized u.username).map User.username := by
    have h1 : p.1 ∈ (updates.map Prod.fst).toFinset := by
      rw [List.mem_toFinset]
      exact List.mem_map_of_mem _ hp
    rw [← hcard, List.mem_toFinset] at h1
    exact h1
  simp only [List.mem_map] at hpx
  obtain ⟨u, hu3, hue⟩ := hpx
  have hhit := (List.mem_filter.mp hu3).2
  simp only [Bool.and_eq_true] at hhit
  exact ⟨by rw [← hue]; exact hhit.2,
    ⟨u, (List.mem_filter.mp hu3).1, hue⟩⟩

/-- C4: for every non-empty batch of role edits (with distinct submitted
usernames, over a users table with its primary-key uniqueness), the batch
either fails with an error and leaves the users table exactly as it was
(zero rows change — in particular whenever the compiled edit_role filter
authorizes only a strict subset of the targeted users, the row count cannot
match and the transaction rolls back), or commits with every submitted
user existing, authorized, and carrying their requested new role; a partial
application is never an outcome. -/
theorem editUsersRoleByUsername_atomic (authorized : String → Bool)
    (updates : List (String × String)) (users : List User)
    (hne : updates ≠ [])
    (hu : (updates.map Prod.fst).Nodup)
    (hn : (users.map User.username).Nodup) :
    (∃ e, UserActions.editUsersRoleByUsername authorized updates users =
        (.error e, users)) ∨
      ((UserActions.editUsersRoleByUsername authorized updates users).1 =
          .ok () ∧
        ∀ p ∈ updates, authorized p.1 = true ∧ (∃ u ∈ users, u.username = p.1) ∧
          ∀ u ∈ users, u.username = p.1 →
            ({ u with role := p.2 } : User) ∈
              (UserActions.editUsersRoleByUsername authorized updates
                users).2) := by
  have h0 : updates.length ≠ 0 := fun h =>
    hne (List.eq_nil_of_length_eq_zero h)
  have hne2 : (updates.length == 0) = false :=
    Bool.eq_false_iff.mpr fun hb => h0 (by simpa using hb)
  by_cases hc : (users.filter fun u =>
      (updates.any fun p => p.1 == u.username) &&
        authorized u.username).length = updates.length
  · have hcomp : UserActions.editUsersRoleByUsername authorized updates
        users =
        (.ok (), users.map fun u =>
          if (updates.any fun p => p.1 == u.username) &&
              authorized u.username then
            { u with role :=
                ((updates.filter fun p => p.1 == u.username).headD
                  ("", u.role)).2 }
          else u) := by
      unfold UserActions.editUsersRoleByUsername
      simp [hne2, hc]
    right
    constructor
    · rw [hcomp]
    · intro p hp
      obtain ⟨hauth, hex⟩ := all_requested_of_count hu hn hc p hp
      refine ⟨hauth, hex, ?_⟩
      intro u hu4 hue
      rw [hcomp]
      have hfu : (if (updates.any fun q => q.1 == u.username) &&
          authorized u.username then
            ({ u with role :=
                ((updates.filter fun q => q.1 == u.username).headD
                  ("", u.role)).2 } : User)
          else u) = { u with role := p.2 } := by
        rw [if_pos ?hcond]
        · have hfk : (updates.filter fun q => q.1 == u.username) = [p] := by
            rw [show u.username = p.1 from hue]
            exact filter_key_single hu hp
          rw [hfk]
          rfl
        case hcond =>
          simp only [Bool.and_eq_true, List.any_eq_true]
          exact ⟨⟨p, hp, by simp [hue]⟩, by rw [hue]; exact hauth⟩
      rw [← hfu]
      exact List.mem_map_of_mem _ hu4
  · left
    refine ⟨.authz "not permitted to edit role of all submitted users", ?_⟩
    unfold UserActions.editUsersRoleByUsername
    simp [hne2, hc]

/-- Witness for C4, scenario C of the spec: a batch of three role edits where
the filter authorizes only two of the targeted users; the theorem yields its
disjunction at this input, and concretely the call returns the error with the
users table unchanged (zero rows changed). -/
theorem editUsersRoleByUsername_atomic_witness :
    ((∃ e, UserActions.editUsersRoleByUsername
          (fun u => u == "u1" || u == "u2")
          [("u1", "admin"), ("u2", "admin"), ("u3", "admin")]
          [⟨"u1", "acme", "member"⟩, ⟨"u2", "acme", "member"⟩,
            ⟨"u3", "acme", "member"⟩] =
          (.error e,
            [⟨"u1", "acme", "member"⟩, ⟨"u2", "acme", "member"⟩,
              ⟨"u3", "acme", "member"⟩])) ∨
      ((UserActions.editUsersRoleByUsername
            (fun u => u == "u1" || u == "u2")
            [("u1", "admin"), ("u2", "admin"), ("u3", "admin")]
            [⟨"u1", "acme", "member"⟩, ⟨"u2", "acme", "member"⟩,
              ⟨"u3", "acme", "member"⟩]).1 = .ok () ∧
        ∀ p ∈ ([("u1", "admin"), ("u2", "admin"), ("u3", "admin")] :
            List (String × String)),
          (fun u => u == "u1" || u == "u2") p.1 = true ∧
          (∃ u ∈ ([⟨"u1", "acme", "member"⟩, ⟨"u2", "acme", "member"⟩,
              ⟨"u3", "acme", "member"⟩] : List User), u.username = p.1) ∧
          ∀ u ∈ ([⟨"u1", "acme", "member"⟩, ⟨"u2", "acme", "member"⟩,
              ⟨"u3", "acme", "member"⟩] : List User), u.username = p.1 →
            ({ u with role := p.2 } : User) ∈
              (UserActions.editUsersRoleByUsername
                (fun u => u == "u1" || u == "u2")
                [("u1", "admin"), ("u2", "admin"), ("u3", "admin")]
                [⟨"u1", "acme", "member"⟩, ⟨"u2", "acme", "member"⟩,
                  ⟨"u3", "acme", "member"⟩]).2)) ∧
    UserActions.editUsersRoleByUsername (fun u => u == "u1" || u == "u2")
        [("u1", "admin"), ("u2", "admin"), ("u3", "admin")]
        [⟨"u1", "acme", "member"⟩, ⟨"u2", "acme", "member"⟩,
          ⟨"u3", "acme", "member"⟩] =
      (.error (.authz "not permitted to edit role of all submitted users"),
        [⟨"u1", "acme", "member"⟩, ⟨"u2", "acme", "member"⟩,
          ⟨"u3", "acme", "member"⟩]) :=
  ⟨editUsersRoleByUsername_atomic (fun u => u == "u1" || u == "u2")
      [("u1", "admin"), ("u2", "admin"), ("u3", "admin")]
      [⟨"u1", "acme", "member"⟩, ⟨"u2", "acme", "member"⟩,
        ⟨"u3", "acme", "member"⟩]
      (by decide) (by decide) (by decide),
    rfl⟩

set_option maxRecDepth 1000000 in
/-- Witness for the amended C8: cancelling the already-completed appointment 1
is rejected with the authorization-denial error and both tables unchanged,
even for meg, who holds every relevant role and relation. -/
theorem updateAppointment_terminal_always_rejected_witness :
    Emr.updateAppointment factsApptCompleted 6 "meg" 1 "canceled" none
        [⟨1, "acme", "meg", "pat", "completed"⟩] [] =
      (.error (.authz "not permitted to update Appointment"),
        [⟨1, "acme", "meg", "pat", "completed"⟩], []) :=
  (updateAppointment_terminal_always_rejected factsApptCompleted (by decide) 1
    (by decide) "meg" "canceled" (Or.inr rfl) none
    [⟨1, "acme", "meg", "pat", "completed"⟩] [] 6).2.2.2.2
